import Mathlib

/-
Verification of the PHP indexer / completion engine of acode-pocketmine-ide
(src/src/main.js, class PhpIndexer). JavaScript semantics are shallowly
embedded: JS Maps become association lists in insertion order, JS Sets become
duplicate-free lists in insertion order, and object references that are
mutated through the global maps (class definitions, file records) are
modelled as the string keys under which the objects are stored. Loops over
an index into the token array are embedded as fuel-based recursions; call
sites pass a fuel that is at least the number of remaining loop iterations
(one token is consumed per iteration), so the fuel-exhaustion branch is
never taken at the fuel the wrappers supply.
-/

/-! ## JavaScript string primitives -/

/-- Character class of the JavaScript regex `\s` (ECMAScript WhiteSpace and
LineTerminator), which `tokenize` uses to skip whitespace. Note that it
includes U+FEFF (ZWNBSP / byte-order mark). -/
def jsIsWs (c : Char) : Bool :=
  let n := c.toNat
  n = 0x20 || n = 0x09 || n = 0x0a || n = 0x0b || n = 0x0c || n = 0x0d ||
  n = 0xa0 || n = 0x1680 || (0x2000 <= n && n <= 0x200a) ||
  n = 0x2028 || n = 0x2029 || n = 0x202f || n = 0x205f || n = 0x3000 ||
  n = 0xfeff

/-- JS `String.prototype.toLowerCase` restricted to the ASCII range (the only
case the indexer relies on: keyword matching and prefix comparison of
identifiers built from `[a-zA-Z0-9_\\]`). -/
def strLower (s : String) : String := String.mk (s.data.map Char.toLower)

/-- JS `String.prototype.trim` (strips the same character class as `\s`). -/
def jsTrim (s : String) : String :=
  String.mk (((s.data.dropWhile jsIsWs).reverse.dropWhile jsIsWs).reverse)

/-- JS `a.startsWith(b)` on char lists. -/
def listStarts (l sub : List Char) : Bool := sub.isPrefixOf l

/-- JS `a.includes(b)` on char lists (substring test). -/
def listIncl (l sub : List Char) : Bool :=
  if sub.isPrefixOf l then true
  else
    match l with
    | [] => false
    | _ :: t => listIncl t sub

/-- JS `s.split(sep)` for a one-character separator. -/
def splitCharAux (sep : Char) : List Char → List Char → List (List Char)
  | [], acc => [acc.reverse]
  | c :: cs, acc =>
    if c = sep then acc.reverse :: splitCharAux sep cs []
    else splitCharAux sep cs (c :: acc)

/-- JS `s.split('x')`: every occurrence separates; empty segments are kept. -/
def splitOn1 (sep : Char) (s : String) : List String :=
  (splitCharAux sep s.data []).map String.mk

mutual

/-- JS `s.split(/\s+/)`: maximal whitespace runs separate; a leading or
trailing run contributes an empty segment, and `"".split` gives `[""]`. -/
def splitWsAux : List Char → List Char → List (List Char)
  | [], acc => [acc.reverse]
  | c :: cs, acc =>
    if jsIsWs c then acc.reverse :: splitWsRun cs
    else splitWsAux cs (c :: acc)

/-- Remainder of a separator run: skip further whitespace, then start the
next segment. -/
def splitWsRun : List Char → List (List Char)
  | [] => [[]]
  | c :: cs => if jsIsWs c then splitWsRun cs else splitWsAux cs [c]

end

def splitWs (s : String) : List String := (splitWsAux s.data []).map String.mk

/-! ## Association-list model of JS Map and Set -/

/-- `Map.get` (first entry with the key; entries built through `mset` are
duplicate-free). -/
def mget {β : Type} (m : List (String × β)) (k : String) : Option β :=
  (m.find? (fun p => p.1 = k)).map (fun p => p.2)

/-- `Map.has`. -/
def mhas {β : Type} (m : List (String × β)) (k : String) : Bool :=
  (m.find? (fun p => p.1 = k)).isSome

/-- `Map.set`: replace in place if the key exists, else append (JS Maps keep
insertion order). -/
def mset {β : Type} (m : List (String × β)) (k : String) (v : β) :
    List (String × β) :=
  if mhas m k then m.map (fun p => if p.1 = k then (k, v) else p)
  else m ++ [(k, v)]

/-- Mutation of the object stored under a key (JS mutates through the shared
reference; absent keys are untouched, which never happens at guarded call
sites). -/
def mupd {β : Type} (m : List (String × β)) (k : String) (f : β → β) :
    List (String × β) :=
  m.map (fun p => if p.1 = k then (k, f p.2) else p)

/-- `Set.add` (insertion order, no duplicates). -/
def sadd (s : List String) (x : String) : List String :=
  if s.contains x then s else s ++ [x]

/-! ## Lexer (tokenize, src/src/main.js lines 930-1107) -/

inductive TokType where
  | T_OPEN_TAG | T_NAMESPACE | T_USE | T_CLASS | T_INTERFACE | T_TRAIT
  | T_FUNCTION | T_VARIABLE | T_CONST | T_PUBLIC | T_PROTECTED | T_PRIVATE
  | T_STATIC | T_ABSTRACT | T_FINAL | T_EXTENDS | T_IMPLEMENTS | T_STRING
  | T_WHITESPACE | T_COMMENT | T_DOC_COMMENT | CHAR
  deriving DecidableEq, Repr

structure Token where
  type : TokType
  value : String
  line : Nat
  column : Nat
  deriving DecidableEq, Repr

/-- Regex `[a-zA-Z_]` (start of a keyword/identifier). -/
def isIdentStart (c : Char) : Bool :=
  ('a' ≤ c && c ≤ 'z') || ('A' ≤ c && c ≤ 'Z') || c = '_'

/-- Regex `[a-zA-Z0-9_\\]` (identifier continuation, namespace-qualified). -/
def isIdentChar (c : Char) : Bool :=
  isIdentStart c || ('0' ≤ c && c ≤ '9') || c = '\\'

/-- Regex `[a-zA-Z0-9_]` (variable-name continuation after `$`). -/
def isWordChar (c : Char) : Bool :=
  isIdentStart c || ('0' ≤ c && c ≤ '9')

/-- The line-comment loop: consume up to (not including) the next newline. -/
def takeLine : List Char → List Char × List Char
  | [] => ([], [])
  | c :: cs =>
    if c = '\n' then ([], c :: cs)
    else
      let p := takeLine cs
      (c :: p.1, p.2)

/-- The block-comment loop (runs while at least two characters remain; stops
after `*/`; tracks line/column across newlines). Returns
(consumed, rest, line, column). -/
def scanBlock : List Char → Nat → Nat → List Char × List Char × Nat × Nat
  | c1 :: c2 :: rest, line, col =>
    if c1 = '*' ∧ c2 = '/' then ([c1, c2], rest, line, col)
    else
      let line2 := if c1 = '\n' then line + 1 else line
      let col2 := if c1 = '\n' then 1 else col
      let r := scanBlock (c2 :: rest) line2 col2
      (c1 :: r.1, r.2.1, r.2.2.1, r.2.2.2)
  | cs, line, col => ([], cs, line, col)

/-- The quoted-string loop after the opening quote: stop after an unescaped
closing quote (`prev` is the previously consumed character, initially the
opening quote itself). -/
def scanStr (q : Char) : Char → List Char → List Char × List Char
  | _, [] => ([], [])
  | prev, c :: cs =>
    if c = q ∧ prev ≠ '\\' then ([c], cs)
    else
      let p := scanStr q c cs
      (c :: p.1, p.2)

/-- A maximal run of characters satisfying `p`. -/
def takeRun (p : Char → Bool) : List Char → List Char × List Char
  | [] => ([], [])
  | c :: cs =>
    if p c then
      let r := takeRun p cs
      (c :: r.1, r.2)
    else ([], c :: cs)

/-- The keyword switch on the lowercased identifier. -/
def keywordType (lowerValue : String) : TokType :=
  if lowerValue = "namespace" then .T_NAMESPACE
  else if lowerValue = "use" then .T_USE
  else if lowerValue = "class" then .T_CLASS
  else if lowerValue = "interface" then .T_INTERFACE
  else if lowerValue = "trait" then .T_TRAIT
  else if lowerValue = "function" then .T_FUNCTION
  else if lowerValue = "const" then .T_CONST
  else if lowerValue = "public" then .T_PUBLIC
  else if lowerValue = "protected" then .T_PROTECTED
  else if lowerValue = "private" then .T_PRIVATE
  else if lowerValue = "static" then .T_STATIC
  else if lowerValue = "abstract" then .T_ABSTRACT
  else if lowerValue = "final" then .T_FINAL
  else if lowerValue = "extends" then .T_EXTENDS
  else if lowerValue = "implements" then .T_IMPLEMENTS
  else .T_STRING

/-- The per-iteration line update at the top of the `tokenize` loop. -/
def ln2 (c : Char) (line : Nat) : Nat := if c = '\n' then line + 1 else line

/-- The per-iteration column update at the top of the `tokenize` loop. -/
def cl2 (c : Char) (col : Nat) : Nat := if c = '\n' then 1 else col + 1

/-- The main `tokenize` loop. Every iteration consumes at least one
character, so fuel equal to the remaining length suffices (proved below);
the fuel-zero branch is unreachable at the fuel `tokenize` passes. -/
def tokenizeF : Nat → List Char → Nat → Nat → List Token
  | 0, _, _, _ => []
  | _ + 1, [], _, _ => []
  | fuel + 1, c :: rest, line, col =>
    let line2 := ln2 c line
    let col2 := cl2 c col
    if jsIsWs c then tokenizeF fuel rest line2 col2
    else if listStarts (c :: rest) ['<', '?', 'p', 'h', 'p'] then
      { type := .T_OPEN_TAG, value := "<?php", line := line2, column := col2 }
        :: tokenizeF fuel ((c :: rest).drop 5) line2 col2
    else if listStarts (c :: rest) ['/', '/'] || c = '#' then
      let p := takeLine (c :: rest)
      { type := .T_COMMENT, value := String.mk p.1, line := line2, column := col2 }
        :: tokenizeF fuel p.2 line2 col2
    else if listStarts (c :: rest) ['/', '*'] then
      let isDoc := listStarts (c :: rest) ['/', '*', '*']
      let r := scanBlock ((c :: rest).drop 2) line2 col2
      { type := if isDoc then .T_DOC_COMMENT else .T_COMMENT,
        value := String.mk ('/' :: '*' :: r.1), line := r.2.2.1, column := r.2.2.2 }
        :: tokenizeF fuel r.2.1 r.2.2.1 r.2.2.2
    else if c = '"' || c = '\'' then
      let p := scanStr c c rest
      { type := .T_STRING, value := String.mk (c :: p.1), line := line2, column := col2 }
        :: tokenizeF fuel p.2 line2 col2
    else if c = '$' then
      let p := takeRun isWordChar rest
      { type := .T_VARIABLE, value := String.mk ('$' :: p.1), line := line2, column := col2 }
        :: tokenizeF fuel p.2 line2 col2
    else if isIdentStart c then
      let p := takeRun isIdentChar (c :: rest)
      let v := String.mk p.1
      { type := keywordType (strLower v), value := v, line := line2, column := col2 }
        :: tokenizeF fuel p.2 line2 col2
    else
      { type := .CHAR, value := String.mk [c], line := line2, column := col2 }
        :: tokenizeF fuel rest line2 col2

/-- Strip a leading byte-order mark, as `tokenize` does before its loop. -/
def stripBom : List Char → List Char
  | c :: rest => if c.toNat = 0xfeff then rest else c :: rest
  | [] => []

/-- `tokenize(content)`: BOM strip, then the scan loop starting at line 1,
column 1. -/
def tokenize (content : String) : List Token :=
  let cs := stripBom content.data
  tokenizeF cs.length cs 1 1

/-! ## Data model (PhpIndexer state, constructor lines 743-765) -/

def PROPERTY_NORMAL : Nat := 0
def PROPERTY_STATIC : Nat := 1
def PROPERTY_CONST : Nat := 2

structure DocComment where
  summary : String
  description : String
  tags : List (String × List String)
  deriving DecidableEq, Repr

structure Param where
  name : String
  type : Option String
  defaultValue : Option String
  isReference : Bool
  isVariadic : Bool
  deriving DecidableEq, Repr

/-- A function or method record (`functionDefinition`). The JS field
`class` is called `cls` here (`class` is reserved in Lean); `inherited`
is absent (undefined, hence falsy) until the resolver sets it. -/
structure FunctionDef where
  name : String
  modifiers : List String
  parameters : List Param
  returnType : Option String
  docComment : Option DocComment
  file : String
  line : Nat
  isMethod : Bool
  cls : Option String
  inherited : Bool := false
  deriving DecidableEq, Repr

/-- A property record as built by `parseProperty`. The objects it builds
carry no `type` field, so reads of `propData.type` in the completion engine
see `undefined`; that absent field is modelled by `jsType := none`. -/
structure PropDef where
  name : String
  modifiers : List String
  defaultValue : Option String
  file : String
  line : Nat
  docComment : Option DocComment
  jsType : Option Nat := none
  inherited : Bool := false
  deriving DecidableEq, Repr

structure ConstDef where
  name : String
  value : String
  modifiers : List String
  file : String
  line : Nat
  docComment : Option DocComment
  deriving DecidableEq, Repr

/-- A class/interface/trait record (`classDefinition`). `namespace` and
`extends` are reserved words in Lean, so those fields are `nsp` and
`extendsNames` (and `implements` is `implementsNames` for symmetry).
`inheritanceResolved` is undefined (falsy) until the resolver sets it. -/
structure ClassDef where
  name : String
  fullName : String
  nsp : String
  type : String
  modifiers : List String
  extendsNames : List String
  implementsNames : List String
  methods : List (String × FunctionDef)
  properties : List (String × PropDef)
  constants : List (String × ConstDef)
  file : String
  docComment : Option DocComment
  line : Nat
  inheritanceResolved : Bool := false
  deriving DecidableEq, Repr

/-- The per-file record created by `processPhpFile`. `classes` maps a short
name to the full name under which the shared class object is stored in the
global map (object references are modelled as keys); `lastModified` is
`Date.now()`, modelled as 0 since it is never read. -/
structure FileData where
  path : String
  nsp : String
  uses : List (String × String)
  classes : List (String × String)
  functions : List (String × FunctionDef)
  lastModified : Nat
  deriving DecidableEq, Repr

/-- The whole `PhpIndexer` object. `currentClass` holds the key of the class
object being mutated (a JS object reference). The external `onProgress`
callback is outside the model. -/
structure Indexer where
  classes : List (String × ClassDef) := []
  interfaces : List (String × ClassDef) := []
  traits : List (String × ClassDef) := []
  functions : List (String × FunctionDef) := []
  namespaces : List (String × List String) := []
  uses : List (String × String) := []
  fileIndex : List (String × FileData) := []
  done : List String := []
  currentFile : String := ""
  currentNamespace : String := ""
  currentClass : Option String := none
  currentFunction : Option String := none
  lastDocComment : Option DocComment := none
  totalFiles : Nat := 0
  processedFiles : Nat := 0
  deriving DecidableEq, Repr

/-- The constructor state (`new PhpIndexer()`). -/
def initIndexer : Indexer := {}

/-- `tokens[i]` at call sites guarded by `i < tokens.length`. -/
def tokAt (ts : List Token) (i : Nat) : Token :=
  (ts[i]?).getD { type := .CHAR, value := "", line := 0, column := 0 }

/-! ## Doc-comment parser (parseDocComment, lines 1677-1726) -/

/-- Per-line `replace(/^\s*\*\s?/, '')`. -/
def stripStar (l : List Char) : List Char :=
  match l.dropWhile jsIsWs with
  | '*' :: r =>
    match r with
    | c :: r2 => if jsIsWs c then r2 else c :: r2
    | [] => []
  | _ => l

/-- The tag regex `^@(\w+)(?:\s+(.*))?$` on a line (an absent second group
yields the empty value). -/
def tagParse (line : String) : Option (String × String) :=
  match line.data with
  | '@' :: rest =>
    let p := takeRun isWordChar rest
    if p.1 = [] then none
    else
      match p.2 with
      | [] => some (String.mk p.1, "")
      | c :: _ =>
        if jsIsWs c then some (String.mk p.1, String.mk (p.2.dropWhile jsIsWs))
        else none
  | _ => none

inductive DocSection where
  | summary | description | tags
  deriving DecidableEq, Repr

/-- The line fold of `parseDocComment` (summary, then description, then
tag continuation; lines starting with `@` open a tag when they match). -/
def docFold : List String → DocComment → DocSection → Option String → DocComment
  | [], doc, _, _ => doc
  | line :: rest, doc, sect, curTag =>
    if line.startsWith "@" then
      match tagParse line with
      | some tv =>
        let doc := { doc with tags := mset doc.tags tv.1 ((mget doc.tags tv.1).getD [] ++ [tv.2]) }
        docFold rest doc .tags (some tv.1)
      | none => docFold rest doc sect curTag
    else if sect = .summary ∧ doc.summary = "" then
      docFold rest { doc with summary := line } .description curTag
    else if sect = .description then
      docFold rest
        { doc with description :=
            doc.description ++ (if doc.description ≠ "" then "\n" else "") ++ line }
        sect curTag
    else if sect = .tags ∧ curTag.isSome then
      match curTag with
      | some tn =>
        let vals := (mget doc.tags tn).getD []
        let doc :=
          if vals ≠ [] then
            { doc with tags := mset doc.tags tn (vals.dropLast ++ [vals.getLastD "" ++ "\n" ++ line]) }
          else doc
        docFold rest doc sect curTag
      | none => docFold rest doc sect curTag
    else docFold rest doc sect curTag

def parseDocComment (docCommentText : String) : DocComment :=
  let s1 := if docCommentText.startsWith "/**" then docCommentText.drop 3 else docCommentText
  let s2 := if s1.endsWith "*/" then s1.dropRight 2 else s1
  let lines := (splitOn1 '\n' s2).map (fun l => jsTrim (String.mk (stripStar l.data)))
  let lines := lines.filter (fun l => l ≠ "")
  docFold lines { summary := "", description := "", tags := [] } .summary none

/-! ## Token-stream helpers (the small index-advancing loops) -/

/-- Skip tokens of any of the given types (the `while ... T_WHITESPACE`
style loops; such tokens are never emitted by `tokenize` but the loops are
in the source). -/
def skipTypes (ign : List TokType) (ts : List Token) : Nat → Nat → Nat
  | 0, i => i
  | fuel + 1, i =>
    match ts[i]? with
    | some t => if ign.contains t.type then skipTypes ign ts fuel (i + 1) else i
    | none => i

/-- `isIgnorable` of parseFunction: whitespace/comment token kinds, or a
single-character token whose text is whitespace. -/
def isIgnorableTok (t : Token) : Bool :=
  t.type = .T_WHITESPACE || t.type = .T_COMMENT || t.type = .T_DOC_COMMENT ||
  (t.type = .CHAR && t.value.data.any jsIsWs)

def skipIgnorable (ts : List Token) : Nat → Nat → Nat
  | 0, i => i
  | fuel + 1, i =>
    match ts[i]? with
    | some t => if isIgnorableTok t then skipIgnorable ts fuel (i + 1) else i
    | none => i

/-- `while (i < len && tokens[i].value is none of stops) i++` — stops at the
matching token (or the end). -/
def skipUntilVals (ts : List Token) (stops : List String) : Nat → Nat → Nat
  | 0, i => i
  | fuel + 1, i =>
    match ts[i]? with
    | some t => if stops.contains t.value then i else skipUntilVals ts stops fuel (i + 1)
    | none => i

/-- Concatenate token text until one of the stop values (the `val +=
tokens[i].value` loops). Returns the text and the stop index. -/
def collectUntilVals (ts : List Token) (stops : List String) : Nat → Nat → String → String × Nat
  | 0, i, acc => (acc, i)
  | fuel + 1, i, acc =>
    match ts[i]? with
    | some t =>
      if stops.contains t.value then (acc, i)
      else collectUntilVals ts stops fuel (i + 1) (acc ++ t.value)
    | none => (acc, i)

/-! ## Declaration parser (parseNamespace/parseUse/parseClass/parseProperty/
parseFunction/parseTokens, lines 1114-1613) -/

/-- The namespace-name accumulation loop (identifier or backslash tokens). -/
def pnName (ts : List Token) : Nat → Nat → String → String × Nat
  | 0, i, acc => (acc, i)
  | fuel + 1, i, acc =>
    match ts[i]? with
    | some t =>
      if t.type = .T_STRING || t.value = "\\" then pnName ts fuel (i + 1) (acc ++ t.value)
      else (acc, i)
    | none => (acc, i)

def parseNamespace (ts : List Token) (start : Nat) (fileKey : String) (idx : Indexer) :
    Indexer × Nat :=
  let i := skipTypes [.T_WHITESPACE] ts (ts.length + 1) (start + 1)
  let r := pnName ts (ts.length + 1) i ""
  let namespaceName := r.1
  if namespaceName ≠ "" then
    let idx := { idx with
      currentNamespace := namespaceName,
      fileIndex := (mupd idx.fileIndex fileKey (fun fd => { fd with nsp := namespaceName })),
      namespaces :=
        if mhas idx.namespaces namespaceName then idx.namespaces
        else mset idx.namespaces namespaceName [] }
    (idx, r.2)
  else (idx, r.2)

/-- The use-statement loop (accumulates the imported name, and the alias
after a case-insensitive `as`, up to `;`). -/
def puLoop (ts : List Token) : Nat → Nat → String → String → Bool → String × String × Nat
  | 0, i, useName, aliasAcc, _ => (useName, aliasAcc, i)
  | fuel + 1, i, useName, aliasAcc, inAlias =>
    match ts[i]? with
    | none => (useName, aliasAcc, i)
    | some t =>
      if t.value = ";" then (useName, aliasAcc, i)
      else if strLower t.value = "as" then puLoop ts fuel (i + 1) useName aliasAcc true
      else if t.type = .T_STRING || t.value = "\\" then
        if inAlias then puLoop ts fuel (i + 1) useName (aliasAcc ++ t.value) true
        else puLoop ts fuel (i + 1) (useName ++ t.value) aliasAcc false
      else puLoop ts fuel (i + 1) useName aliasAcc inAlias

/-- `useName.split('\\').pop()`. -/
def lastSegment (s : String) : String := (splitOn1 '\\' s).getLastD ""

def parseUse (ts : List Token) (start : Nat) (fileKey : String) (idx : Indexer) :
    Indexer × Nat :=
  let i := skipTypes [.T_WHITESPACE] ts (ts.length + 1) (start + 1)
  let r := puLoop ts (ts.length + 1) i "" "" false
  let useName := r.1
  if useName ≠ "" then
    let finalAlias := if r.2.1 ≠ "" then r.2.1 else lastSegment useName
    ({ idx with fileIndex := (mupd idx.fileIndex fileKey
        (fun fd => { fd with uses := mset fd.uses finalAlias useName })) }, r.2.2)
  else (idx, r.2.2)

/-- The backward modifier scan of parseClass: walk indices `start-1, start-2,
...` collecting `abstract`/`final`, stopping at the first single-character
token (tokens of other kinds are walked over without stopping). -/
def classModsScan (ts : List Token) : Nat → List String
  | 0 => []
  | j + 1 =>
    match ts[j]? with
    | none => classModsScan ts j
    | some t =>
      if t.type = .CHAR then []
      else
        let mods := classModsScan ts j
        let mods := if t.type = .T_ABSTRACT then sadd mods "abstract" else mods
        if t.type = .T_FINAL then sadd mods "final" else mods

/-- The inner `implements` loop: push every identifier until `{`. -/
def implLoop (ts : List Token) : Nat → Nat → List String → List String × Nat
  | 0, i, acc => (acc, i)
  | fuel + 1, i, acc =>
    match ts[i]? with
    | none => (acc, i)
    | some t =>
      if t.value = "\x7b" then (acc, i)
      else if t.type = .T_STRING then implLoop ts fuel (i + 1) (acc ++ [t.value])
      else implLoop ts fuel (i + 1) acc

/-- The class-header loop between the class name and the opening brace:
collect `extends` and `implements` entries. -/
def classHdr (ts : List Token) : Nat → Nat → List String → List String →
    List String × List String × Nat
  | 0, i, ext, impl => (ext, impl, i)
  | fuel + 1, i, ext, impl =>
    match ts[i]? with
    | none => (ext, impl, i)
    | some t =>
      if t.value = "\x7b" then (ext, impl, i)
      else if t.type = .T_EXTENDS then
        let i2 := skipTypes [.T_WHITESPACE] ts (ts.length + 1) (i + 1)
        match ts[i2]? with
        | some t2 =>
          if t2.type = .T_STRING then classHdr ts fuel (i2 + 1) (ext ++ [t2.value]) impl
          else classHdr ts fuel i2 ext impl
        | none => classHdr ts fuel i2 ext impl
      else if t.type = .T_IMPLEMENTS then
        let r := implLoop ts (ts.length + 1) (i + 1) impl
        classHdr ts fuel r.2 ext r.1
      else classHdr ts fuel (i + 1) ext impl

/-- The modifier-collection loop of parseProperty (stops after `const`,
skips interleaved whitespace/comments, stops at anything else). -/
def ppModsLoop (ts : List Token) : Nat → Nat → List String → List String × Nat
  | 0, i, mods => (mods, i)
  | fuel + 1, i, mods =>
    match ts[i]? with
    | none => (mods, i)
    | some t =>
      if t.type = .T_PUBLIC then ppModsLoop ts fuel (i + 1) (sadd mods "public")
      else if t.type = .T_PROTECTED then ppModsLoop ts fuel (i + 1) (sadd mods "protected")
      else if t.type = .T_PRIVATE then ppModsLoop ts fuel (i + 1) (sadd mods "private")
      else if t.type = .T_STATIC then ppModsLoop ts fuel (i + 1) (sadd mods "static")
      else if t.type = .T_CONST then (sadd mods "const", i + 1)
      else if t.type = .T_WHITESPACE || t.type = .T_COMMENT || t.type = .T_DOC_COMMENT ||
          (t.type = .CHAR && t.value.data.any jsIsWs) then
        ppModsLoop ts fuel (i + 1) mods
      else (mods, i)

/-- `varToken.value.replace(/^\$/, '')`. -/
def stripDollar (s : String) : String :=
  match s.data with
  | '$' :: r => String.mk r
  | _ => s

/-- Store a class constant on the current class (a no-op without one). -/
def storeConst (idx : Indexer) (cd : ConstDef) : Indexer :=
  match idx.currentClass with
  | some ck => { idx with classes := (mupd idx.classes ck
      (fun c => { c with constants := mset c.constants cd.name cd })) }
  | none => idx

/-- Store a property on the current class (a no-op without one). -/
def storeProp (idx : Indexer) (pd : PropDef) : Indexer :=
  match idx.currentClass with
  | some ck => { idx with classes := (mupd idx.classes ck
      (fun c => { c with properties := mset c.properties pd.name pd })) }
  | none => idx

/-- The comma-separated `$name [= default]` loop of parseProperty. A
non-variable token skips forward to the next `;` and stops. -/
def ppVarLoop (ts : List Token) : Nat → Nat → List String → Indexer → Indexer × Nat
  | 0, i, _, idx => (idx, i)
  | fuel + 1, i, mods, idx =>
    if ts.length ≤ i then (idx, i)
    else
      let i2 := skipTypes [.T_WHITESPACE, .T_COMMENT] ts (ts.length + 1) i
      match ts[i2]? with
      | some t =>
        if t.type = .T_VARIABLE then
          let propName := stripDollar t.value
          let i3 := skipTypes [.T_WHITESPACE, .T_COMMENT] ts (ts.length + 1) (i2 + 1)
          let dv :=
            match ts[i3]? with
            | some t2 =>
              if t2.value = "=" then
                let r := collectUntilVals ts [",", ";"] (ts.length + 1) (i3 + 1) ""
                ((if jsTrim r.1 ≠ "" then some (jsTrim r.1) else none), r.2)
              else ((none : Option String), i3)
            | none => ((none : Option String), i3)
          let idx := storeProp idx
            { name := propName, modifiers := mods, defaultValue := dv.1,
              file := idx.currentFile, line := t.line,
              docComment := idx.lastDocComment }
          match ts[dv.2]? with
          | some t3 =>
            if t3.value = "," then ppVarLoop ts fuel (dv.2 + 1) mods idx
            else if t3.value = ";" then (idx, dv.2 + 1)
            else ppVarLoop ts fuel dv.2 mods idx
          | none => ppVarLoop ts fuel dv.2 mods idx
        else
          let i6 := skipUntilVals ts [";"] (ts.length + 1) i2
          match ts[i6]? with
          | some _ => (idx, i6 + 1)
          | none => (idx, i6)
      | none => (idx, i2)

def parseProperty (ts : List Token) (start : Nat) (idx : Indexer) : Indexer × Nat :=
  let r := ppModsLoop ts (ts.length + 1) start []
  let mods0 := r.1
  let i := r.2
  let mods :=
    if !(mods0.contains "public" || mods0.contains "protected" ||
        mods0.contains "private" || mods0.contains "const")
    then sadd mods0 "public" else mods0
  let constDone : Option (Indexer × Nat) :=
    if mods.contains "const" then
      let i2 := skipTypes [.T_WHITESPACE, .T_COMMENT] ts (ts.length + 1) i
      match ts[i2]? with
      | some t =>
        if t.type = .T_STRING then
          let constName := t.value
          let i3 := skipUntilVals ts ["="] (ts.length + 1) (i2 + 1)
          let i4 := match ts[i3]? with | some _ => i3 + 1 | none => i3
          let rv := collectUntilVals ts [";"] (ts.length + 1) i4 ""
          let i5 := match ts[rv.2]? with | some _ => rv.2 + 1 | none => rv.2
          let idx := storeConst idx
            { name := constName, value := jsTrim rv.1, modifiers := mods,
              file := idx.currentFile, line := (tokAt ts start).line,
              docComment := idx.lastDocComment }
          some ({ idx with lastDocComment := none }, i5)
        else none
      | none => none
    else none
  match constDone with
  | some out => out
  | none =>
    -- the const path falls through here with the post-skip index when no
    -- constant name was found
    let iv :=
      if mods.contains "const" then skipTypes [.T_WHITESPACE, .T_COMMENT] ts (ts.length + 1) i
      else i
    let r2 := ppVarLoop ts (ts.length + 1) iv mods idx
    ({ r2.1 with lastDocComment := none }, r2.2)

/-- The backward modifier scan of parseFunction: walk indices `start-1,
start-2, ...` collecting the six modifier kinds, stopping only at a
single-character token (tokens of other kinds are walked over). -/
def funcModsScan (ts : List Token) : Nat → List String
  | 0 => []
  | j + 1 =>
    match ts[j]? with
    | none => funcModsScan ts j
    | some t =>
      if t.type = .CHAR then []
      else
        let mods := funcModsScan ts j
        let mods := if t.type = .T_PUBLIC then sadd mods "public" else mods
        let mods := if t.type = .T_PROTECTED then sadd mods "protected" else mods
        let mods := if t.type = .T_PRIVATE then sadd mods "private" else mods
        let mods := if t.type = .T_STATIC then sadd mods "static" else mods
        let mods := if t.type = .T_ABSTRACT then sadd mods "abstract" else mods
        if t.type = .T_FINAL then sadd mods "final" else mods

/-- The modifier set parseFunction stores: the backward scan plus the
default public visibility. -/
def parseFunctionMods (ts : List Token) (start : Nat) : List String :=
  let modifiers := funcModsScan ts start
  if !(modifiers.contains "public" || modifiers.contains "protected" ||
      modifiers.contains "private")
  then sadd modifiers "public" else modifiers

/-- `paramStr.replace(/^\(+/, '').replace(/\)+$/, '').trim()`. -/
def stripParens (s : String) : String :=
  jsTrim (String.mk (((s.data.dropWhile (fun c => c = '(')).reverse.dropWhile
    (fun c => c = ')')).reverse))

def parseParameter (paramStr : String) : Param :=
  let p0 := jsTrim paramStr
  let refP := if p0.startsWith "&" then (true, jsTrim (p0.drop 1)) else (false, p0)
  let varP := if refP.2.startsWith "..." then (true, jsTrim (refP.2.drop 3)) else (false, refP.2)
  let parts := splitOn1 '=' varP.2
  let mainPart := jsTrim (parts.headD "")
  let defaultValue := if parts.length > 1 then some (jsTrim (parts.getD 1 "")) else none
  let toks := splitWs mainPart
  let tp :=
    if toks.length ≥ 2 then ((some (toks.headD "") : Option String), toks.getLastD "")
    else if toks.length = 1 then (none, toks.headD "")
    else (none, "")
  let pname := if tp.2.startsWith "$" then tp.2.drop 1 else tp.2
  { name := pname, type := tp.1, defaultValue := defaultValue,
    isReference := refP.1, isVariadic := varP.1 }

/-- The parameter-list loop of parseFunction: token text is accumulated with
no separators, parentheses are depth-tracked (the JS depth counter can go
negative, hence Int), top-level commas split, and the final fragment is
paren-stripped before parsing. -/
def fnParams (ts : List Token) : Nat → Nat → Bool → Int → String → List Param →
    List Param × Nat
  | 0, i, _, _, _, acc => (acc, i)
  | fuel + 1, i, inParams, depth, cur, acc =>
    match ts[i]? with
    | none => (acc, i)
    | some t =>
      if t.value = "(" then fnParams ts fuel (i + 1) true (depth + 1) (cur ++ t.value) acc
      else if t.value = ")" then
        if depth = 1 then
          let acc :=
            if jsTrim cur ≠ "" then
              let trimmed := stripParens cur
              if trimmed ≠ "" then acc ++ [parseParameter trimmed] else acc
            else acc
          (acc, i + 1)
        else fnParams ts fuel (i + 1) inParams (depth - 1) (cur ++ t.value) acc
      else if inParams && t.value = "," && depth = 1 then
        let acc := if jsTrim cur ≠ "" then acc ++ [parseParameter (jsTrim cur)] else acc
        fnParams ts fuel (i + 1) inParams depth "" acc
      else if inParams then fnParams ts fuel (i + 1) inParams depth (cur ++ t.value) acc
      else fnParams ts fuel (i + 1) inParams depth cur acc

/-- The return-type loop after `:`: identifiers plus the characters
`\\`, `?`, `|`. -/
def fnRet (ts : List Token) : Nat → Nat → String → String × Nat
  | 0, i, acc => (acc, i)
  | fuel + 1, i, acc =>
    match ts[i]? with
    | none => (acc, i)
    | some t =>
      if t.type = .T_STRING then fnRet ts fuel (i + 1) (acc ++ t.value)
      else if t.type = .CHAR && t.value.data.any (fun c => c = '\\' || c = '?' || c = '|') then
        fnRet ts fuel (i + 1) (acc ++ t.value)
      else (acc, i)

/-- The matching-parenthesis skip of the anonymous-closure path. -/
def parenSkip (ts : List Token) : Nat → Nat → Int → Nat
  | 0, i, _ => i
  | fuel + 1, i, depth =>
    match ts[i]? with
    | none => i
    | some t =>
      if t.value = "(" then parenSkip ts fuel (i + 1) (depth + 1)
      else if t.value = ")" then
        if depth = 1 then i + 1 else parenSkip ts fuel (i + 1) (depth - 1)
      else parenSkip ts fuel (i + 1) depth

/-- The anonymous-closure path of parseFunction: skip to `(`, skip the
matching parenthesis, then skip to `{` or `;`; nothing is registered. -/
def parseFunctionAnon (ts : List Token) (i : Nat) (idx : Indexer) : Indexer × Nat :=
  let i1 := skipUntilVals ts ["("] (ts.length + 1) i
  if ts.length ≤ i1 then (idx, i1 + 1)
  else
    let i2 := parenSkip ts (ts.length + 1) i1 0
    let i3 := skipUntilVals ts ["\x7b", ";"] (ts.length + 1) i2
    (idx, i3 + 1)

/-- `this.currentClass?.name || null` in the key model. -/
def currentClassName (idx : Indexer) : Option String :=
  idx.currentClass.bind (fun ck => (mget idx.classes ck).map (fun c => c.name))

def parseFunction (ts : List Token) (start : Nat) (fileKey : String) (idx : Indexer) :
    Indexer × Nat :=
  let modifiers := parseFunctionMods ts start
  let i := skipIgnorable ts (ts.length + 1) (start + 1)
  match ts[i]? with
  | some t =>
    if t.type = .T_STRING then
      let functionName := t.value
      let rp := fnParams ts (ts.length + 1) (i + 1) false 0 "" []
      let i2 := skipIgnorable ts (ts.length + 1) rp.2
      let rt :=
        match ts[i2]? with
        | some t2 =>
          if t2.value = ":" then
            let rr := fnRet ts (ts.length + 1) (i2 + 1) ""
            ((if jsTrim rr.1 ≠ "" then some (jsTrim rr.1) else none), rr.2)
          else ((none : Option String), i2)
        | none => ((none : Option String), i2)
      let fd : FunctionDef :=
        { name := functionName, modifiers := modifiers, parameters := rp.1,
          returnType := rt.1, docComment := idx.lastDocComment,
          file := idx.currentFile, line := (tokAt ts start).line,
          isMethod := idx.currentClass.isSome, cls := currentClassName idx }
      let idx :=
        match idx.currentClass with
        | some ck => { idx with classes := (mupd idx.classes ck
            (fun c => { c with methods := mset c.methods functionName fd })) }
        | none =>
          let fullName :=
            (if idx.currentNamespace ≠ "" then idx.currentNamespace ++ "\\" ++ functionName
             else functionName)
          { idx with
              functions := mset idx.functions fullName fd
              fileIndex := (mupd idx.fileIndex fileKey
                (fun f => { f with functions := mset f.functions functionName fd })) }
      ({ idx with lastDocComment := none }, rt.2)
    else parseFunctionAnon ts i idx
  | none => parseFunctionAnon ts i idx

/-- The class-body loop: brace-depth tracking, doc-comment capture, and
dispatch to method and property parsing. -/
def classBody (ts : List Token) (fileKey : String) : Nat → Nat → Int → Indexer →
    Indexer × Nat
  | 0, i, _, idx => (idx, i)
  | fuel + 1, i, braceDepth, idx =>
    if braceDepth ≤ 0 then (idx, i)
    else
      match ts[i]? with
      | none => (idx, i)
      | some t =>
        if t.value = "\x7b" then classBody ts fileKey fuel (i + 1) (braceDepth + 1) idx
        else if t.value = "\x7d" then classBody ts fileKey fuel (i + 1) (braceDepth - 1) idx
        else if t.type = .T_DOC_COMMENT then
          classBody ts fileKey fuel (i + 1) braceDepth
            { idx with lastDocComment := some (parseDocComment t.value) }
        else if t.type = .T_FUNCTION then
          let r := parseFunction ts i fileKey idx
          classBody ts fileKey fuel r.2 braceDepth r.1
        else if t.type = .T_PUBLIC || t.type = .T_PROTECTED || t.type = .T_PRIVATE ||
            t.type = .T_STATIC || t.type = .T_CONST then
          let r := parseProperty ts i idx
          classBody ts fileKey fuel r.2 braceDepth r.1
        else classBody ts fileKey fuel (i + 1) braceDepth idx

def parseClass (ts : List Token) (start : Nat) (fileKey : String) (idx : Indexer) :
    Indexer × Nat :=
  let classType := strLower (tokAt ts start).value
  let modifiers := classModsScan ts start
  let i := skipTypes [.T_WHITESPACE, .T_COMMENT, .T_DOC_COMMENT] ts (ts.length + 1) (start + 1)
  match ts[i]? with
  | none => (idx, i)
  | some t =>
    if t.type ≠ .T_STRING then (idx, i)
    else
      let className := t.value
      let hdr := classHdr ts (ts.length + 1) (i + 1) [] []
      let i2 := hdr.2.2
      let fullClassName :=
        if idx.currentNamespace ≠ "" then idx.currentNamespace ++ "\\" ++ className
        else className
      let classDefinition : ClassDef :=
        { name := className, fullName := fullClassName, nsp := idx.currentNamespace,
          type := classType, modifiers := modifiers, extendsNames := hdr.1,
          implementsNames := hdr.2.1, methods := [], properties := [], constants := [],
          file := idx.currentFile, docComment := idx.lastDocComment,
          line := (tokAt ts start).line }
      let idx := { idx with
        classes := mset idx.classes fullClassName classDefinition,
        fileIndex := (mupd idx.fileIndex fileKey
          (fun f => { f with classes := mset f.classes className fullClassName })),
        currentClass := some fullClassName }
      let idx :=
        if idx.currentNamespace ≠ "" && mhas idx.namespaces idx.currentNamespace then
          { idx with namespaces := (mupd idx.namespaces idx.currentNamespace
              (fun s => sadd s fullClassName)) }
        else idx
      let idx := { idx with lastDocComment := none }
      match ts[i2]? with
      | none => (idx, i2)
      | some t2 =>
        if t2.value ≠ "\x7b" then (idx, i2)
        else
          let i3 := skipUntilVals ts ["\x7b"] (ts.length + 1) i2
          let startBody :=
            match ts[i3]? with
            | some t3 => if t3.value = "\x7b" then (i3 + 1, (1 : Int)) else (i3, 0)
            | none => (i3, 0)
          let r := classBody ts fileKey (ts.length + 1) startBody.1 startBody.2 idx
          ({ r.1 with currentClass := none }, r.2)

/-- The top-level parse loop (`parseTokens`): dispatch on token type. -/
def parseTokens (ts : List Token) (fileKey : String) : Nat → Nat → Indexer → Indexer
  | 0, _, idx => idx
  | fuel + 1, i, idx =>
    match ts[i]? with
    | none => idx
    | some t =>
      match t.type with
      | .T_NAMESPACE =>
        let r := parseNamespace ts i fileKey idx
        parseTokens ts fileKey fuel r.2 r.1
      | .T_USE =>
        let r := parseUse ts i fileKey idx
        parseTokens ts fileKey fuel r.2 r.1
      | .T_CLASS =>
        let r := parseClass ts i fileKey idx
        parseTokens ts fileKey fuel r.2 r.1
      | .T_INTERFACE =>
        let r := parseClass ts i fileKey idx
        parseTokens ts fileKey fuel r.2 r.1
      | .T_TRAIT =>
        let r := parseClass ts i fileKey idx
        parseTokens ts fileKey fuel r.2 r.1
      | .T_FUNCTION =>
        let r := parseFunction ts i fileKey idx
        parseTokens ts fileKey fuel r.2 r.1
      | .T_DOC_COMMENT =>
        parseTokens ts fileKey fuel (i + 1)
          { idx with lastDocComment := some (parseDocComment t.value) }
      | _ => parseTokens ts fileKey fuel (i + 1) idx

/-- `filePath.replace(/\\/g, '/')`. -/
def normalizeFilePath (filePath : String) : String :=
  String.mk (filePath.data.map (fun c => if c = '\\' then '/' else c))

/-- `processPhpFile` given the file content (the read itself is an external
collaborator): reset the per-file parser state, register a fresh file
record, tokenize and parse. -/
def processFile (idx : Indexer) (file : String × String) : Indexer :=
  let idx := { idx with
    currentFile := file.1
    currentNamespace := ""
    currentClass := none
    currentFunction := none }
  let fileKey := normalizeFilePath file.1
  let idx := { idx with fileIndex := (mset idx.fileIndex fileKey
    { path := file.1, nsp := "", uses := [], classes := [], functions := [],
      lastModified := 0 }) }
  let ts := tokenize file.2
  parseTokens ts fileKey (ts.length + 1) 0 idx

/-! ## Symbol table and inheritance resolver (lines 1731-1823) -/

/-- `resolveClassName(className, context)` (lines 1782-1806): direct lookup,
then under the context namespace, then through the context file's use-alias
map; the result is the key of the found class object (the object reference
in the JS code). -/
def resolveClassName (idx : Indexer) (className : String) (context : ClassDef) :
    Option String :=
  if mhas idx.classes className then some className
  else
    let viaNs : Option String :=
      if context.nsp ≠ "" then
        (if mhas idx.classes (context.nsp ++ "\\" ++ className) then
          some (context.nsp ++ "\\" ++ className)
        else none)
      else none
    match viaNs with
    | some k => some k
    | none =>
      match mget idx.fileIndex (normalizeFilePath context.file) with
      | some fileData =>
        (match mget fileData.uses className with
         | some fullName => if mhas idx.classes fullName then some fullName else none
         | none => none)
      | none => none

/-- The method-inheriting loop of resolveInheritance: for each parent entry
in order, copy it (tagged inherited) unless the child already has the name
or the member is neither public nor protected. -/
def inheritMethodsMap (childM parentM : List (String × FunctionDef)) :
    List (String × FunctionDef) :=
  parentM.foldl
    (fun cm p =>
      if !mhas cm p.1 && (p.2.modifiers.contains "public" || p.2.modifiers.contains "protected")
      then mset cm p.1 { p.2 with inherited := true } else cm)
    childM

/-- The property-inheriting loop, same shape. -/
def inheritPropsMap (childP parentP : List (String × PropDef)) :
    List (String × PropDef) :=
  parentP.foldl
    (fun cp p =>
      if !mhas cp p.1 && (p.2.modifiers.contains "public" || p.2.modifiers.contains "protected")
      then mset cp p.1 { p.2 with inherited := true } else cp)
    childP

/-- Copy the (already resolved) parent's eligible members into the child. -/
def inheritMembers (idx : Indexer) (ck pk : String) : Indexer :=
  match mget idx.classes pk with
  | none => idx
  | some parentClass =>
    { idx with classes := (mupd idx.classes ck
        (fun child => { child with
          methods := inheritMethodsMap child.methods parentClass.methods
          properties := inheritPropsMap child.properties parentClass.properties })) }

/-- The `for (const parentName of classData.extends)` loop of
resolveInheritance, parameterised by the recursive resolution call (`none`
models the stack overflow of an unbounded recursion). -/
def resolveExtendsGo (resolve : Indexer → String → Option Indexer) (idx : Indexer)
    (ck : String) : List String → Option Indexer
  | [] => some idx
  | parentName :: rest =>
    match mget idx.classes ck with
    | none => resolveExtendsGo resolve idx ck rest
    | some child =>
      match resolveClassName idx parentName child with
      | none => resolveExtendsGo resolve idx ck rest
      | some pk =>
        match resolve idx pk with
        | none => none
        | some idx2 => resolveExtendsGo resolve (inheritMembers idx2 ck pk) ck rest

/-- `resolveInheritance(classData)` (lines 1745-1774). The source guards
only on `inheritanceResolved`, which is set after the loop; there is no
in-progress marking, so the recursion is bounded only by the call stack —
modelled by fuel, with `none` for exhaustion (the JS stack overflow). -/
def resolveInheritanceF : Nat → Indexer → String → Option Indexer
  | 0, _, _ => none
  | fuel + 1, idx, key =>
    match mget idx.classes key with
    | none => some idx
    | some classData =>
      if classData.inheritanceResolved then some idx
      else
        match resolveExtendsGo (resolveInheritanceF fuel) idx key classData.extendsNames with
        | none => none
        | some idx2 =>
          some { idx2 with classes := (mupd idx2.classes key
            (fun c => { c with inheritanceResolved := true })) }

/-- `buildCompletionCaches` has an empty body. -/
def buildCompletionCaches (idx : Indexer) : Indexer := idx

/-- `postProcessIndex`: resolve every class in map order, then build the
(empty) caches. -/
def postProcessIndex (fuel : Nat) (idx : Indexer) : Option Indexer :=
  let r := (idx.classes.map (fun p => p.1)).foldl
    (fun acc k =>
      match acc with
      | none => none
      | some j => resolveInheritanceF fuel j k)
    (some idx)
  r.map buildCompletionCaches

/-- `clearIndex` (lines 820-829). -/
def clearIndex (idx : Indexer) : Indexer :=
  { idx with
    classes := []
    interfaces := []
    traits := []
    functions := []
    namespaces := []
    uses := []
    fileIndex := []
    done := [] }

/-- `indexPhpFiles` given the already-read file contents (directory walking
and file reads are external collaborators; batches only interleave at await
points, so the per-file parses run atomically and are modelled as a fold). -/
def indexFiles (files : List (String × String)) (fuel : Nat) (idx0 : Indexer) :
    Option Indexer :=
  let idx := clearIndex idx0
  let idx := { idx with totalFiles := files.length, processedFiles := 0 }
  let idx := files.foldl processFile idx
  let idx := { idx with processedFiles := files.length }
  postProcessIndex fuel idx

/-! ## Completion engine (scoring, sorting, static completions) -/

structure Completion where
  caption : String
  value : String
  meta : String
  score : Nat
  docText : String
  snippet : Option String := none
  deriving DecidableEq, Repr

/-- The object passed as `data` to `calculateScore`; only its `modifiers`
field is read (`data = {}` at some call sites, hence the Option). -/
structure ScoreData where
  modifiers : Option (List String) := none

/-- `calculateScore(itemName, prefix, data)` (lines 2261-2292). -/
def calculateScore (itemName pfx : String) (data : ScoreData) : Nat :=
  let score := 1000
  let lowerItem := strLower itemName
  let lowerPfx := strLower pfx
  let score :=
    if lowerItem = lowerPfx then score + 500
    else if listStarts lowerItem.data lowerPfx.data then score + 300
    else if listIncl lowerItem.data lowerPfx.data then score + 100
    else score
  let score :=
    match data.modifiers with
    | some m => if m.contains "public" then score + 50 else score
    | none => score
  let commonMethods := ["__construct", "getName", "getId", "toString", "getValue"]
  let score := if commonMethods.contains itemName then score + 25 else score
  score

/-- The sort comparator of `sortCompletions` (lines 2300-2315): score
descending, then caption length ascending, then `localeCompare` — modelled
as code-point order, the only case the ranking claims exercise. -/
def complCompare (a b : Completion) : Int :=
  if a.score ≠ b.score then (b.score : Int) - (a.score : Int)
  else if a.caption.length ≠ b.caption.length then
    (a.caption.length : Int) - (b.caption.length : Int)
  else if a.caption < b.caption then -1
  else if b.caption < a.caption then 1
  else 0

/-- `a` may come before `b` under the comparator. -/
def complLE (a b : Completion) : Prop := complCompare a b ≤ 0

instance : DecidableRel complLE := fun a b =>
  inferInstanceAs (Decidable (complCompare a b ≤ 0))

/-- `sortCompletions(completions, prefix)`: a comparator sort (the sort
itself is the engine's; any comparator-correct sort yields a list ordered
as claimed, which is what the theorems state). -/
def sortCompletions (completions : List Completion) (pfx : String) : List Completion :=
  let _ := pfx
  List.insertionSort complLE completions

/-- The query context object; only `inSameClass` is ever read. -/
structure CompletionCtx where
  inSameClass : Bool := false
  deriving DecidableEq, Repr

/-- `inferClassContext(context)` (lines 2120-2130): unconditionally null. -/
def inferClassContext (_context : CompletionCtx) : Option ClassDef := none

/-- The name/docComment view `formatDocText` reads off its argument. -/
structure DocView where
  name : String
  docComment : Option DocComment

/-- `formatDocText(data)` (lines 2224-2252). -/
def formatDocText (data : DocView) : String :=
  match data.docComment with
  | none => if data.name ≠ "" then data.name else "No documentation available"
  | some dc =>
    let text := if dc.summary ≠ "" then dc.summary else ""
    let text :=
      if dc.description ≠ "" then
        text ++ (if text ≠ "" then "\n\n" else "") ++ dc.description
      else text
    let text :=
      match mget dc.tags "param" with
      | some params =>
        text ++ "\n\nParameters:\n" ++ String.intercalate "\n" (params.map (fun p => "  " ++ p))
      | none => text
    let text :=
      match mget dc.tags "return" with
      | some rets => text ++ "\n\nReturns: " ++ rets.headD ""
      | none => text
    if text ≠ "" then text
    else if data.name ≠ "" then data.name
    else "No documentation available"

/-- `formatParameters(parameters)` (lines 2173-2217): the signature string
and the snippet placeholders (both branches of the JS placeholder
conditional produce the same text). -/
def formatParameters (parameters : List Param) : String × String :=
  let r := parameters.foldl
    (fun (acc : List String × List String × Nat) param =>
      let paramStr :=
        (match param.type with
         | some ty => if ty ≠ "" then ty ++ " " else ""
         | none => "")
        ++ (if param.isReference then "&" else "")
        ++ (if param.isVariadic then "..." else "")
        ++ "$" ++ param.name
        ++ (match param.defaultValue with | some d => " = " ++ d | none => "")
      let index := acc.2.2
      let placeholder :=
        if param.defaultValue ≠ none then
          "$\x7b" ++ toString (index + 1) ++ ":$" ++ param.name ++ "\x7d"
        else
          "$\x7b" ++ toString (index + 1) ++ ":$" ++ param.name ++ "\x7d"
      (acc.1 ++ [paramStr], acc.2.1 ++ [placeholder], index + 1))
    ([], [], 0)
  (String.intercalate ", " r.2.1, String.intercalate ", " r.1)

/-- `createMethodCompletion(methodName, methodData)` (lines 2138-2148);
the pair returned by `formatParameters` is (snippet, signature). -/
def createMethodCompletion (methodName : String) (methodData : FunctionDef) : Completion :=
  let params := formatParameters methodData.parameters
  { caption := methodName
    value := methodName ++ "(" ++ params.1 ++ ")"
    meta := if methodData.modifiers.contains "static" then "static method" else "method"
    score := 1000
    docText := formatDocText { name := methodData.name, docComment := methodData.docComment }
      ++ "\n\nSignature: " ++ methodName ++ "(" ++ params.2 ++ ")" }

/-- `getStaticMethodCompletions(prefix, context)` (lines 1953-2020). The
call-local seen set (`this.done`, cleared on entry) is threaded through the
three member loops. -/
def getStaticMethodCompletions (idx : Indexer) (pfx : String) (context : CompletionCtx) :
    List Completion :=
  let _ := idx
  let lowerPfx := strLower pfx
  let classContext := inferClassContext context
  let completions :=
    match classContext with
    | some ctx =>
      let s0 := ctx.methods.foldl
        (fun (acc : List Completion × List String) p =>
          if listStarts (strLower p.1).data lowerPfx.data &&
              p.2.modifiers.contains "static" &&
              (p.2.modifiers.contains "public" || context.inSameClass) then
            if acc.2.contains p.1 then acc
            else (acc.1 ++ [createMethodCompletion p.1 p.2], sadd acc.2 p.1)
          else acc)
        (([], []) : List Completion × List String)
      let s1 := ctx.properties.foldl
        (fun acc p =>
          if listStarts (strLower p.1).data lowerPfx.data &&
              (p.2.modifiers.contains "static" || p.2.jsType = some PROPERTY_CONST) &&
              (p.2.modifiers.contains "public" || context.inSameClass) then
            if acc.2.contains p.1 then acc
            else
              (acc.1 ++ [{ caption := p.1
                           value := if p.2.modifiers.contains "static" then "$" ++ p.1 else p.1
                           meta := if p.2.jsType = some PROPERTY_CONST then "constant"
                                   else "static property"
                           score := calculateScore p.1 pfx { modifiers := some p.2.modifiers }
                           docText := formatDocText { name := p.2.name, docComment := p.2.docComment } }],
               sadd acc.2 p.1)
          else acc)
        s0
      let s2 := ctx.constants.foldl
        (fun acc p =>
          if listStarts (strLower p.1).data lowerPfx.data &&
              (p.2.modifiers.contains "public" || context.inSameClass) then
            if acc.2.contains p.1 then acc
            else
              (acc.1 ++ [{ caption := p.1
                           value := p.1
                           meta := "constant"
                           score := calculateScore p.1 pfx { modifiers := some p.2.modifiers }
                           docText := formatDocText { name := p.2.name, docComment := p.2.docComment } }],
               sadd acc.2 p.1)
          else acc)
        s1
      s2.1
    | none => []
  sortCompletions completions pfx

/-- `getStatistics()` (lines 2321-2334). -/
structure Stats where
  classes : Nat
  interfaces : Nat
  traits : Nat
  functions : Nat
  namespaces : Nat
  files : Nat
  totalMethods : Nat
  totalProperties : Nat
  deriving DecidableEq, Repr

def getStatistics (idx : Indexer) : Stats :=
  { classes := idx.classes.length
    interfaces := idx.interfaces.length
    traits := idx.traits.length
    functions := idx.functions.length
    namespaces := idx.namespaces.length
    files := idx.fileIndex.length
    totalMethods := (idx.classes.map (fun p => p.2.methods.length)).sum
    totalProperties := (idx.classes.map (fun p => p.2.properties.length)).sum }

/-! ## Lexer lemmas: every scan helper consumes a prefix of its input -/

theorem takeLine_append (cs : List Char) : (takeLine cs).1 ++ (takeLine cs).2 = cs := by
  induction cs with
  | nil => simp [takeLine]
  | cons c cs ih => by_cases h : c = '\n' <;> simp [takeLine, h, ih]

theorem takeLine_len (cs : List Char) : (takeLine cs).2.length ≤ cs.length := by
  induction cs with
  | nil => simp [takeLine]
  | cons c cs ih =>
    by_cases h : c = '\n' <;> simp [takeLine, h]
    omega

theorem takeLine_ne (c : Char) (cs : List Char) (h : c ≠ '\n') :
    (takeLine (c :: cs)).1 ≠ [] := by
  simp [takeLine, h]

theorem scanBlock_append (cs : List Char) : ∀ line col : Nat,
    (scanBlock cs line col).1 ++ (scanBlock cs line col).2.1 = cs := by
  induction cs with
  | nil => intro line col; simp [scanBlock]
  | cons c1 tail ih =>
    intro line col
    cases tail with
    | nil => simp [scanBlock]
    | cons c2 rest =>
      by_cases h : c1 = '*' ∧ c2 = '/' <;> simp [scanBlock, h, ih]

theorem scanBlock_len (cs : List Char) : ∀ line col : Nat,
    (scanBlock cs line col).2.1.length ≤ cs.length := by
  induction cs with
  | nil => intro line col; simp [scanBlock]
  | cons c1 tail ih =>
    intro line col
    cases tail with
    | nil => simp [scanBlock]
    | cons c2 rest =>
      by_cases h : c1 = '*' ∧ c2 = '/' <;> simp [scanBlock, h]
      · omega
      · have := ih (if c1 = '\n' then line + 1 else line) (if c1 = '\n' then 1 else col)
        simp at this
        omega

theorem scanStr_append (q : Char) (cs : List Char) : ∀ prev : Char,
    (scanStr q prev cs).1 ++ (scanStr q prev cs).2 = cs := by
  induction cs with
  | nil => intro prev; simp [scanStr]
  | cons c cs ih =>
    intro prev
    by_cases h : c = q ∧ prev ≠ '\\' <;> simp [scanStr, h, ih]

theorem scanStr_len (q : Char) (cs : List Char) : ∀ prev : Char,
    (scanStr q prev cs).2.length ≤ cs.length := by
  induction cs with
  | nil => intro prev; simp [scanStr]
  | cons c cs ih =>
    intro prev
    by_cases h : c = q ∧ prev ≠ '\\'
    · simp [scanStr, h]
    · simp only [scanStr, h, if_false, List.length_cons]
      have := ih c
      omega

theorem takeRun_append (p : Char → Bool) (cs : List Char) :
    (takeRun p cs).1 ++ (takeRun p cs).2 = cs := by
  induction cs with
  | nil => simp [takeRun]
  | cons c cs ih => by_cases h : p c <;> simp [takeRun, h, ih]

theorem takeRun_len (p : Char → Bool) (cs : List Char) :
    (takeRun p cs).2.length ≤ cs.length := by
  induction cs with
  | nil => simp [takeRun]
  | cons c cs ih =>
    by_cases h : p c <;> simp [takeRun, h]
    omega

theorem takeRun_head (p : Char → Bool) (c : Char) (cs : List Char) (h : p c = true) :
    (takeRun p (c :: cs)).1 = c :: (takeRun p cs).1 := by
  simp [takeRun, h]

/-- The decomposition the lexer-completeness claim is about: the input text
is exactly the emitted token literals in order with the skipped whitespace
characters reinserted at their original positions. -/
inductive Covers : List Token → List Char → Prop
  | nil : Covers [] []
  | ws {c : Char} {cs : List Char} {ts : List Token} :
      jsIsWs c = true → Covers ts cs → Covers ts (c :: cs)
  | tok {t : Token} {cs : List Char} {ts : List Token} :
      t.value.data ≠ [] → Covers ts cs → Covers (t :: ts) (t.value.data ++ cs)

theorem takeLine_cons_ne (c : Char) (cs : List Char) (h : c ≠ '\n') :
    takeLine (c :: cs) = (c :: (takeLine cs).1, (takeLine cs).2) := by
  simp [takeLine, h]


/-! ### One step equation per lexer rule (conditions in source priority order) -/

theorem tokenizeF_ws (fuel : Nat) (c : Char) (rest : List Char) (line col : Nat)
    (h1 : jsIsWs c = true) :
    tokenizeF (fuel + 1) (c :: rest) line col = tokenizeF fuel rest (ln2 c line) (cl2 c col) := by
  simp [tokenizeF, h1]

theorem tokenizeF_open (fuel : Nat) (c : Char) (rest : List Char) (line col : Nat)
    (h1 : jsIsWs c = false)
    (h2 : listStarts (c :: rest) ['<', '?', 'p', 'h', 'p'] = true) :
    tokenizeF (fuel + 1) (c :: rest) line col =
      { type := .T_OPEN_TAG, value := "<?php", line := ln2 c line, column := cl2 c col }
        :: tokenizeF fuel ((c :: rest).drop 5) (ln2 c line) (cl2 c col) := by
  simp [tokenizeF, h1, h2]

theorem tokenizeF_lineComment (fuel : Nat) (c : Char) (rest : List Char) (line col : Nat)
    (h1 : jsIsWs c = false)
    (h2 : listStarts (c :: rest) ['<', '?', 'p', 'h', 'p'] = false)
    (h3 : (listStarts (c :: rest) ['/', '/'] || c = '#') = true) :
    tokenizeF (fuel + 1) (c :: rest) line col =
      { type := .T_COMMENT, value := String.mk (takeLine (c :: rest)).1,
        line := ln2 c line, column := cl2 c col }
        :: tokenizeF fuel (takeLine (c :: rest)).2 (ln2 c line) (cl2 c col) := by
  simp [tokenizeF, h1, h2, h3]

theorem tokenizeF_blockComment (fuel : Nat) (c : Char) (rest : List Char) (line col : Nat)
    (h1 : jsIsWs c = false)
    (h2 : listStarts (c :: rest) ['<', '?', 'p', 'h', 'p'] = false)
    (h3 : (listStarts (c :: rest) ['/', '/'] || c = '#') = false)
    (h4 : listStarts (c :: rest) ['/', '*'] = true) :
    tokenizeF (fuel + 1) (c :: rest) line col =
      { type := if listStarts (c :: rest) ['/', '*', '*'] then TokType.T_DOC_COMMENT
                else TokType.T_COMMENT,
        value := String.mk ('/' :: '*' ::
          (scanBlock ((c :: rest).drop 2) (ln2 c line) (cl2 c col)).1),
        line := (scanBlock ((c :: rest).drop 2) (ln2 c line) (cl2 c col)).2.2.1,
        column := (scanBlock ((c :: rest).drop 2) (ln2 c line) (cl2 c col)).2.2.2 }
        :: tokenizeF fuel (scanBlock ((c :: rest).drop 2) (ln2 c line) (cl2 c col)).2.1
             (scanBlock ((c :: rest).drop 2) (ln2 c line) (cl2 c col)).2.2.1
             (scanBlock ((c :: rest).drop 2) (ln2 c line) (cl2 c col)).2.2.2 := by
  simp [tokenizeF, h1, h2, h3, h4]

theorem tokenizeF_string (fuel : Nat) (c : Char) (rest : List Char) (line col : Nat)
    (h1 : jsIsWs c = false)
    (h2 : listStarts (c :: rest) ['<', '?', 'p', 'h', 'p'] = false)
    (h3 : (listStarts (c :: rest) ['/', '/'] || c = '#') = false)
    (h4 : listStarts (c :: rest) ['/', '*'] = false)
    (h5 : (c = '"' || c = '\'') = true) :
    tokenizeF (fuel + 1) (c :: rest) line col =
      { type := .T_STRING, value := String.mk (c :: (scanStr c c rest).1),
        line := ln2 c line, column := cl2 c col }
        :: tokenizeF fuel (scanStr c c rest).2 (ln2 c line) (cl2 c col) := by
  simp [tokenizeF, h1, h2, h3, h4, h5]

theorem tokenizeF_variable (fuel : Nat) (c : Char) (rest : List Char) (line col : Nat)
    (h1 : jsIsWs c = false)
    (h2 : listStarts (c :: rest) ['<', '?', 'p', 'h', 'p'] = false)
    (h3 : (listStarts (c :: rest) ['/', '/'] || c = '#') = false)
    (h4 : listStarts (c :: rest) ['/', '*'] = false)
    (h5 : (c = '"' || c = '\'') = false)
    (h6 : c = '$') :
    tokenizeF (fuel + 1) (c :: rest) line col =
      { type := .T_VARIABLE, value := String.mk ('$' :: (takeRun isWordChar rest).1),
        line := ln2 c line, column := cl2 c col }
        :: tokenizeF fuel (takeRun isWordChar rest).2 (ln2 c line) (cl2 c col) := by
  subst h6
  simp +decide [tokenizeF, listStarts, List.isPrefixOf]

theorem tokenizeF_ident (fuel : Nat) (c : Char) (rest : List Char) (line col : Nat)
    (h1 : jsIsWs c = false)
    (h2 : listStarts (c :: rest) ['<', '?', 'p', 'h', 'p'] = false)
    (h3 : (listStarts (c :: rest) ['/', '/'] || c = '#') = false)
    (h4 : listStarts (c :: rest) ['/', '*'] = false)
    (h5 : (c = '"' || c = '\'') = false)
    (h6 : c ≠ '$')
    (h7 : isIdentStart c = true) :
    tokenizeF (fuel + 1) (c :: rest) line col =
      { type := keywordType (strLower (String.mk (takeRun isIdentChar (c :: rest)).1)),
        value := String.mk (takeRun isIdentChar (c :: rest)).1,
        line := ln2 c line, column := cl2 c col }
        :: tokenizeF fuel (takeRun isIdentChar (c :: rest)).2 (ln2 c line) (cl2 c col) := by
  simp [tokenizeF, h1, h2, h3, h4, h5, h6, h7]

theorem tokenizeF_char (fuel : Nat) (c : Char) (rest : List Char) (line col : Nat)
    (h1 : jsIsWs c = false)
    (h2 : listStarts (c :: rest) ['<', '?', 'p', 'h', 'p'] = false)
    (h3 : (listStarts (c :: rest) ['/', '/'] || c = '#') = false)
    (h4 : listStarts (c :: rest) ['/', '*'] = false)
    (h5 : (c = '"' || c = '\'') = false)
    (h6 : c ≠ '$')
    (h7 : isIdentStart c = false) :
    tokenizeF (fuel + 1) (c :: rest) line col =
      { type := .CHAR, value := String.mk [c], line := ln2 c line, column := cl2 c col }
        :: tokenizeF fuel rest (ln2 c line) (cl2 c col) := by
  simp [tokenizeF, h1, h2, h3, h4, h5, h6, h7]

theorem tokenizeF_covers : ∀ (fuel : Nat) (cs : List Char) (line col : Nat),
    cs.length ≤ fuel → Covers (tokenizeF fuel cs line col) cs := by
  intro fuel
  induction fuel with
  | zero =>
    intro cs line col h
    have hnil : cs = [] := List.eq_nil_of_length_eq_zero (Nat.le_zero.mp h)
    subst hnil
    exact Covers.nil
  | succ fuel ih =>
    intro cs line col h
    match cs with
    | [] => exact Covers.nil
    | c :: rest =>
      have hlen : rest.length ≤ fuel := by simp only [List.length_cons] at h; omega
      by_cases h1 : jsIsWs c = true
      · rw [tokenizeF_ws fuel c rest line col h1]
        exact Covers.ws h1 (ih rest _ _ hlen)
      · have h1f : jsIsWs c = false := by simpa using h1
        by_cases h2 : listStarts (c :: rest) ['<', '?', 'p', 'h', 'p'] = true
        · obtain ⟨t, ht⟩ : ['<', '?', 'p', 'h', 'p'] <+: (c :: rest) := by
            simpa [listStarts, List.isPrefixOf_iff_prefix] using h2
          rw [tokenizeF_open fuel c rest line col h1f h2]
          have hd : (c :: rest).drop 5 = t := by
            rw [← ht]
            simpa using List.drop_left ['<', '?', 'p', 'h', 'p'] t
          have hlt : t.length ≤ fuel := by
            have hl5 := congrArg List.length ht
            simp only [List.length_append, List.length_cons] at hl5 h
            omega
          rw [hd, ← ht]
          have hv : ("<?php" : String).data = ['<', '?', 'p', 'h', 'p'] := by decide
          rw [← hv]
          refine Covers.tok ?_ (ih t _ _ hlt)
          show ("<?php" : String).data ≠ []
          decide
        · have h2f : listStarts (c :: rest) ['<', '?', 'p', 'h', 'p'] = false := by
            simpa using h2
          by_cases h3 : (listStarts (c :: rest) ['/', '/'] || c = '#') = true
          · rw [tokenizeF_lineComment fuel c rest line col h1f h2f h3]
            have hc : c ≠ '\n' := by
              rcases Bool.or_eq_true_iff.mp h3 with hx | hx
              · obtain ⟨t, ht⟩ : ['/', '/'] <+: (c :: rest) := by
                  simpa [listStarts, List.isPrefixOf_iff_prefix] using hx
                simp only [List.cons_append] at ht
                have : '/' = c := by injection ht
                subst this
                decide
              · have : c = '#' := by simpa using hx
                subst this
                decide
            rw [takeLine_cons_ne c rest hc]
            have hrw : (c :: rest) =
                (String.mk (c :: (takeLine rest).1)).data ++ (takeLine rest).2 := by
              simp [takeLine_append rest]
            rw [hrw]
            exact Covers.tok (by simp) (ih _ _ _ (le_trans (takeLine_len rest) hlen))
          · have h3f : (listStarts (c :: rest) ['/', '/'] || c = '#') = false := by
              simpa using h3
            by_cases h4 : listStarts (c :: rest) ['/', '*'] = true
            · obtain ⟨t, ht⟩ : ['/', '*'] <+: (c :: rest) := by
                simpa [listStarts, List.isPrefixOf_iff_prefix] using h4
              simp only [List.cons_append, List.nil_append] at ht
              rw [tokenizeF_blockComment fuel c rest line col h1f h2f h3f h4]
              have hc : '/' = c := by injection ht
              have hrest : '*' :: t = rest := by injection ht
              subst hc
              subst hrest
              have hd : (('/' : Char) :: '*' :: t).drop 2 = t := rfl
              rw [hd]
              have hlt : (scanBlock t (ln2 '/' line) (cl2 '/' col)).2.1.length ≤ fuel := by
                have := scanBlock_len t (ln2 '/' line) (cl2 '/' col)
                simp only [List.length_cons] at hlen
                omega
              have hrw : (('/' : Char) :: '*' :: t) =
                  (String.mk ('/' :: '*' :: (scanBlock t (ln2 '/' line) (cl2 '/' col)).1)).data
                    ++ (scanBlock t (ln2 '/' line) (cl2 '/' col)).2.1 := by
                simp [scanBlock_append t (ln2 '/' line) (cl2 '/' col)]
              rw [hrw]
              exact Covers.tok (by simp) (ih _ _ _ hlt)
            · have h4f : listStarts (c :: rest) ['/', '*'] = false := by simpa using h4
              by_cases h5 : (c = '"' || c = '\'') = true
              · rw [tokenizeF_string fuel c rest line col h1f h2f h3f h4f h5]
                have hrw : (c :: rest) =
                    (String.mk (c :: (scanStr c c rest).1)).data ++ (scanStr c c rest).2 := by
                  simp [scanStr_append c rest c]
                rw [hrw]
                exact Covers.tok (by simp) (ih _ _ _ (le_trans (scanStr_len c rest c) hlen))
              · have h5f : (c = '"' || c = '\'') = false := by simpa using h5
                by_cases h6 : c = '$'
                · subst h6
                  rw [tokenizeF_variable fuel '$' rest line col h1f h2f h3f h4f h5f rfl]
                  have hrw : ('$' :: rest) =
                      (String.mk ('$' :: (takeRun isWordChar rest).1)).data
                        ++ (takeRun isWordChar rest).2 := by
                    simp [takeRun_append isWordChar rest]
                  rw [hrw]
                  exact Covers.tok (by simp)
                    (ih _ _ _ (le_trans (takeRun_len isWordChar rest) hlen))
                · by_cases h7 : isIdentStart c = true
                  · rw [tokenizeF_ident fuel c rest line col h1f h2f h3f h4f h5f h6 h7]
                    have hic : isIdentChar c = true := by simp [isIdentChar, h7]
                    rw [takeRun_head isIdentChar c rest hic]
                    have hr2 : (takeRun isIdentChar (c :: rest)).2 =
                        (takeRun isIdentChar rest).2 := by
                      simp [takeRun, hic]
                    rw [hr2]
                    have hrw : (c :: rest) =
                        (String.mk (c :: (takeRun isIdentChar rest).1)).data
                          ++ (takeRun isIdentChar rest).2 := by
                      simp [takeRun_append isIdentChar rest]
                    rw [hrw]
                    exact Covers.tok (by simp)
                      (ih _ _ _ (le_trans (takeRun_len isIdentChar rest) hlen))
                  · have h7f : isIdentStart c = false := by simpa using h7
                    rw [tokenizeF_char fuel c rest line col h1f h2f h3f h4f h5f h6 h7f]
                    have hrw : (c :: rest) = (String.mk [c]).data ++ rest := by simp
                    rw [hrw]
                    exact Covers.tok (by simp) (ih rest _ _ hlen)

theorem tokenizeF_succ : ∀ (fuel : Nat) (cs : List Char) (line col : Nat),
    cs.length ≤ fuel → tokenizeF (fuel + 1) cs line col = tokenizeF fuel cs line col := by
  intro fuel
  induction fuel with
  | zero =>
    intro cs line col h
    have hnil : cs = [] := List.eq_nil_of_length_eq_zero (Nat.le_zero.mp h)
    subst hnil
    rfl
  | succ fuel ih =>
    intro cs line col h
    match cs with
    | [] => rfl
    | c :: rest =>
      have hlen : rest.length ≤ fuel := by simp only [List.length_cons] at h; omega
      by_cases h1 : jsIsWs c = true
      · rw [tokenizeF_ws (fuel + 1) c rest line col h1, tokenizeF_ws fuel c rest line col h1]
        exact ih rest _ _ hlen
      · have h1f : jsIsWs c = false := by simpa using h1
        by_cases h2 : listStarts (c :: rest) ['<', '?', 'p', 'h', 'p'] = true
        · obtain ⟨t, ht⟩ : ['<', '?', 'p', 'h', 'p'] <+: (c :: rest) := by
            simpa [listStarts, List.isPrefixOf_iff_prefix] using h2
          rw [tokenizeF_open (fuel + 1) c rest line col h1f h2,
            tokenizeF_open fuel c rest line col h1f h2]
          have hd : (c :: rest).drop 5 = t := by
            rw [← ht]
            simpa using List.drop_left ['<', '?', 'p', 'h', 'p'] t
          have hlt : t.length ≤ fuel := by
            have hl5 := congrArg List.length ht
            simp only [List.length_append, List.length_cons] at hl5 h
            omega
          rw [hd, ih t _ _ hlt]
        · have h2f : listStarts (c :: rest) ['<', '?', 'p', 'h', 'p'] = false := by
            simpa using h2
          by_cases h3 : (listStarts (c :: rest) ['/', '/'] || c = '#') = true
          · rw [tokenizeF_lineComment (fuel + 1) c rest line col h1f h2f h3,
              tokenizeF_lineComment fuel c rest line col h1f h2f h3]
            have hc : c ≠ '\n' := by
              rcases Bool.or_eq_true_iff.mp h3 with hx | hx
              · obtain ⟨t, ht⟩ : ['/', '/'] <+: (c :: rest) := by
                  simpa [listStarts, List.isPrefixOf_iff_prefix] using hx
                simp only [List.cons_append] at ht
                have : '/' = c := by injection ht
                subst this
                decide
              · have : c = '#' := by simpa using hx
                subst this
                decide
            rw [takeLine_cons_ne c rest hc]
            rw [ih _ _ _ (le_trans (takeLine_len rest) hlen)]
          · have h3f : (listStarts (c :: rest) ['/', '/'] || c = '#') = false := by
              simpa using h3
            by_cases h4 : listStarts (c :: rest) ['/', '*'] = true
            · obtain ⟨t, ht⟩ : ['/', '*'] <+: (c :: rest) := by
                simpa [listStarts, List.isPrefixOf_iff_prefix] using h4
              simp only [List.cons_append, List.nil_append] at ht
              rw [tokenizeF_blockComment (fuel + 1) c rest line col h1f h2f h3f h4,
                tokenizeF_blockComment fuel c rest line col h1f h2f h3f h4]
              have hc : '/' = c := by injection ht
              have hrest : '*' :: t = rest := by injection ht
              subst hc
              subst hrest
              have hlt : (scanBlock (('/' :: '*' :: t).drop 2) (ln2 '/' line)
                  (cl2 '/' col)).2.1.length ≤ fuel := by
                have := scanBlock_len t (ln2 '/' line) (cl2 '/' col)
                simp only [List.length_cons] at hlen
                simpa using by omega
              rw [ih _ _ _ hlt]
            · have h4f : listStarts (c :: rest) ['/', '*'] = false := by simpa using h4
              by_cases h5 : (c = '"' || c = '\'') = true
              · rw [tokenizeF_string (fuel + 1) c rest line col h1f h2f h3f h4f h5,
                  tokenizeF_string fuel c rest line col h1f h2f h3f h4f h5]
                rw [ih _ _ _ (le_trans (scanStr_len c rest c) hlen)]
              · have h5f : (c = '"' || c = '\'') = false := by simpa using h5
                by_cases h6 : c = '$'
                · subst h6
                  rw [tokenizeF_variable (fuel + 1) '$' rest line col h1f h2f h3f h4f h5f rfl,
                    tokenizeF_variable fuel '$' rest line col h1f h2f h3f h4f h5f rfl]
                  rw [ih _ _ _ (le_trans (takeRun_len isWordChar rest) hlen)]
                · by_cases h7 : isIdentStart c = true
                  · rw [tokenizeF_ident (fuel + 1) c rest line col h1f h2f h3f h4f h5f h6 h7,
                      tokenizeF_ident fuel c rest line col h1f h2f h3f h4f h5f h6 h7]
                    have hic : isIdentChar c = true := by simp [isIdentChar, h7]
                    have hr2 : (takeRun isIdentChar (c :: rest)).2 =
                        (takeRun isIdentChar rest).2 := by
                      simp [takeRun, hic]
                    rw [hr2, ih _ _ _ (le_trans (takeRun_len isIdentChar rest) hlen)]
                  · have h7f : isIdentStart c = false := by simpa using h7
                    rw [tokenizeF_char (fuel + 1) c rest line col h1f h2f h3f h4f h5f h6 h7f,
                      tokenizeF_char fuel c rest line col h1f h2f h3f h4f h5f h6 h7f]
                    rw [ih rest _ _ hlen]

theorem tokenizeF_add (k : Nat) : ∀ (fuel : Nat) (cs : List Char) (line col : Nat),
    cs.length ≤ fuel → tokenizeF (fuel + k) cs line col = tokenizeF fuel cs line col := by
  induction k with
  | zero => intro fuel cs line col _; rfl
  | succ k ih =>
    intro fuel cs line col h
    have : fuel + (k + 1) = (fuel + k) + 1 := by omega
    rw [this, tokenizeF_succ (fuel + k) cs line col (le_trans h (by omega)), ih fuel cs line col h]

/-- Fuel at least the input length fully determines the token stream: the
loop consumes at least one character per iteration. -/
theorem tokenizeF_fuel_irrel (f1 f2 : Nat) (cs : List Char) (line col : Nat)
    (hf1 : cs.length ≤ f1) (hf2 : cs.length ≤ f2) :
    tokenizeF f1 cs line col = tokenizeF f2 cs line col := by
  have e1 : f1 = cs.length + (f1 - cs.length) := by omega
  have e2 : f2 = cs.length + (f2 - cs.length) := by omega
  rw [e1, e2, tokenizeF_add (f1 - cs.length) cs.length cs line col (le_refl _),
    tokenizeF_add (f2 - cs.length) cs.length cs line col (le_refl _)]

theorem tokenize_covers_list (cs : List Char) :
    Covers (tokenizeF (stripBom cs).length (stripBom cs) 1 1) cs := by
  match cs with
  | [] =>
    show Covers (tokenizeF (stripBom []).length (stripBom []) 1 1) []
    exact tokenizeF_covers _ _ 1 1 (by simp [stripBom])
  | c :: rest =>
    by_cases h : c.toNat = 0xfeff
    · have hss : stripBom (c :: rest) = rest := by simp [stripBom, h]
      rw [hss]
      exact Covers.ws (by simp +decide [jsIsWs, h]) (tokenizeF_covers rest.length rest 1 1 (le_refl _))
    · have hss : stripBom (c :: rest) = c :: rest := by simp [stripBom, h]
      rw [hss]
      exact tokenizeF_covers _ _ 1 1 (le_refl _)

theorem tokenize_covers (s : String) : Covers (tokenize s) s.data := by
  simpa [tokenize] using tokenize_covers_list s.data

/-! ## Spec-side definitions and resolution-step characterization -/

/-- Step (1) of the spec's `resolveClassName` contract: the name as an exact
key of the global class map. -/
def rcnStep1 (idx : Indexer) (className : String) : Option String :=
  if mhas idx.classes className then some className else none

/-- Step (2): with a context namespace, the key `namespace\name`. -/
def rcnStep2 (idx : Indexer) (className : String) (context : ClassDef) : Option String :=
  if context.nsp ≠ "" ∧ mhas idx.classes (context.nsp ++ "\\" ++ className) then
    some (context.nsp ++ "\\" ++ className)
  else none

/-- Step (3): the fully-qualified target from the context file's use-alias
map, retried against the global map. -/
def rcnStep3 (idx : Indexer) (className : String) (context : ClassDef) : Option String :=
  match mget idx.fileIndex (normalizeFilePath context.file) with
  | some fileData =>
    (match mget fileData.uses className with
     | some fullName => if mhas idx.classes fullName then some fullName else none
     | none => none)
  | none => none

/-- Modelled from the spec wording (claim C7): base 1000, one match bonus,
a public bonus, a common-name bonus, as a sum. -/
def calculateScoreSpec (itemName pfx : String) (data : ScoreData) : Nat :=
  1000 +
    (if strLower itemName = strLower pfx then 500
     else if listStarts (strLower itemName).data (strLower pfx).data then 300
     else if listIncl (strLower itemName).data (strLower pfx).data then 100
     else 0) +
    (if (match data.modifiers with | some m => m.contains "public" | none => false)
     then 50 else 0) +
    (if ["__construct", "getName", "getId", "toString", "getValue"].contains itemName
     then 25 else 0)

/-- C3: for every index state, prefix and context object, the static-member
completion operation returns the empty list: `inferClassContext` is
unconditionally null and the static path has no all-classes fallback, so a
`::` query never yields a completion item. -/
theorem c3_static_completions_empty (idx : Indexer) (pfx : String)
    (context : CompletionCtx) :
    getStaticMethodCompletions idx pfx context = [] := rfl

/-- C6: `resolveClassName` tries the exact global key, then the
namespace-qualified key when the context has a namespace, then the
use-alias target retried against the global map; the first step that finds
a class wins and short-circuits the rest, and the result is no-match
exactly when all three steps fail. -/
theorem c6_resolveClassName_steps (idx : Indexer) (className : String)
    (context : ClassDef) :
    resolveClassName idx className context =
      ((rcnStep1 idx className).orElse (fun _ =>
        (rcnStep2 idx className context).orElse (fun _ =>
          rcnStep3 idx className context))) ∧
    (resolveClassName idx className context = none ↔
      rcnStep1 idx className = none ∧ rcnStep2 idx className context = none ∧
        rcnStep3 idx className context = none) := by
  have heq : resolveClassName idx className context =
      ((rcnStep1 idx className).orElse (fun _ =>
        (rcnStep2 idx className context).orElse (fun _ =>
          rcnStep3 idx className context))) := by
    by_cases h1 : mhas idx.classes className
    · simp [resolveClassName, rcnStep1, h1, Option.orElse]
    · by_cases h2 : context.nsp = ""
      · simp [resolveClassName, rcnStep1, rcnStep2, rcnStep3, h1, h2, Option.orElse]
      · by_cases h3 : mhas idx.classes (context.nsp ++ "\\" ++ className)
        · simp [resolveClassName, rcnStep1, rcnStep2, rcnStep3, h1, h2, h3, Option.orElse]
        · simp [resolveClassName, rcnStep1, rcnStep2, rcnStep3, h1, h2, h3, Option.orElse]
  refine ⟨heq, ?_⟩
  rw [heq]
  cases rcnStep1 idx className <;>
    cases rcnStep2 idx className context <;>
      cases rcnStep3 idx className context <;>
        simp [Option.orElse]

/-- C7: the score is exactly 1000, plus 500 for a case-insensitive exact
match, else 300 for a case-insensitive prefix match, else 100 for a
substring match; plus 50 when the item's modifier set includes public;
plus 25 when the name is one of the five common member names. -/
theorem c7_calculateScore (itemName pfx : String) (data : ScoreData) :
    calculateScore itemName pfx data = calculateScoreSpec itemName pfx data := by
  rcases data with ⟨mods⟩
  cases mods with
  | none =>
    simp only [calculateScore, calculateScoreSpec]
    split_ifs <;> simp_all
  | some m =>
    simp only [calculateScore, calculateScoreSpec]
    split_ifs <;> simp_all

/-! ## C8: ranking order -/

/-- The ranking relation stated by the spec: strictly higher score first;
on equal scores the shorter caption first; on equal lengths the
lexicographically smaller caption first. -/
def rankLE (a b : Completion) : Prop :=
  b.score < a.score ∨
    (a.score = b.score ∧ (a.caption.length < b.caption.length ∨
      (a.caption.length = b.caption.length ∧ a.caption ≤ b.caption)))

theorem complLE_iff_rankLE (a b : Completion) : complLE a b ↔ rankLE a b := by
  unfold complLE complCompare rankLE
  by_cases h1 : a.score = b.score
  · rw [if_neg (not_not_intro h1)]
    by_cases h2 : a.caption.length = b.caption.length
    · rw [if_neg (not_not_intro h2)]
      by_cases h3 : a.caption < b.caption
      · rw [if_pos h3]
        constructor
        · intro _
          exact Or.inr ⟨h1, Or.inr ⟨h2, le_of_lt h3⟩⟩
        · intro _
          omega
      · by_cases h4 : b.caption < a.caption
        · rw [if_neg h3, if_pos h4]
          constructor
          · intro h5
            exact absurd h5 (by omega)
          · intro h5
            rcases h5 with h5 | ⟨-, h5 | ⟨-, h5⟩⟩
            · omega
            · omega
            · exact absurd (lt_of_lt_of_le h4 h5) (lt_irrefl _)
        · have he : a.caption = b.caption := le_antisymm (le_of_not_lt h4) (le_of_not_lt h3)
          rw [if_neg h3, if_neg h4]
          constructor
          · intro _
            exact Or.inr ⟨h1, Or.inr ⟨h2, le_of_eq he⟩⟩
          · intro _
            omega
    · rw [if_pos h2]
      constructor
      · intro h5
        refine Or.inr ⟨h1, Or.inl ?_⟩
        omega
      · intro h5
        rcases h5 with h5 | ⟨-, h5 | ⟨h5, -⟩⟩
        · omega
        · omega
        · exact absurd h5 h2
  · rw [if_pos h1]
    constructor
    · intro h5
      exact Or.inl (by omega)
    · intro h5
      rcases h5 with h5 | ⟨h5, -⟩
      · omega
      · exact absurd h5 h1

theorem complLE_total (a b : Completion) : complLE a b ∨ complLE b a := by
  rw [complLE_iff_rankLE, complLE_iff_rankLE]
  unfold rankLE
  rcases lt_trichotomy a.score b.score with h | h | h
  · exact Or.inr (Or.inl h)
  · rcases lt_trichotomy a.caption.length b.caption.length with hl | hl | hl
    · exact Or.inl (Or.inr ⟨h, Or.inl hl⟩)
    · rcases le_total a.caption b.caption with hc | hc
      · exact Or.inl (Or.inr ⟨h, Or.inr ⟨hl, hc⟩⟩)
      · exact Or.inr (Or.inr ⟨h.symm, Or.inr ⟨hl.symm, hc⟩⟩)
    · exact Or.inr (Or.inr ⟨h.symm, Or.inl hl⟩)
  · exact Or.inl (Or.inl h)

theorem complLE_trans (a b c : Completion) (hab : complLE a b) (hbc : complLE b c) :
    complLE a c := by
  rw [complLE_iff_rankLE] at hab hbc ⊢
  unfold rankLE at hab hbc ⊢
  rcases hab with h1 | ⟨e1, h1⟩
  · rcases hbc with h2 | ⟨e2, h2⟩
    · exact Or.inl (lt_trans h2 h1)
    · exact Or.inl (by omega)
  · rcases hbc with h2 | ⟨e2, h2⟩
    · exact Or.inl (by omega)
    · refine Or.inr ⟨e1.trans e2, ?_⟩
      rcases h1 with l1 | ⟨el1, c1⟩
      · rcases h2 with l2 | ⟨el2, c2⟩
        · exact Or.inl (lt_trans l1 l2)
        · exact Or.inl (by omega)
      · rcases h2 with l2 | ⟨el2, c2⟩
        · exact Or.inl (by omega)
        · exact Or.inr ⟨el1.trans el2, le_trans c1 c2⟩

instance : IsTotal Completion complLE := ⟨complLE_total⟩

instance : IsTrans Completion complLE := ⟨fun a b c => complLE_trans a b c⟩

/-- The claim's concrete candidates for prefix "get", scored by the scoring
function, in scrambled input order. -/
def c8Candidates : List Completion :=
  [{ caption := "xget", value := "xget", meta := "method",
     score := calculateScore "xget" "get" {}, docText := "" },
   { caption := "get", value := "get", meta := "method",
     score := calculateScore "get" "get" {}, docText := "" },
   { caption := "getX", value := "getX", meta := "method",
     score := calculateScore "getX" "get" {}, docText := "" }]

/-- C8: `sortCompletions` orders items by descending score, breaking ties
by ascending caption length and then alphabetically: its output is sorted
under that ranking relation and is a permutation of its input; and for
prefix "get" the candidates get, getX, xget scored by the scoring function
come out exactly in the order get, getX, xget. -/
theorem c8_sortCompletions_order :
    (∀ (l : List Completion) (pfx : String),
      (sortCompletions l pfx).Sorted rankLE ∧ (sortCompletions l pfx).Perm l) ∧
    (sortCompletions c8Candidates "get").map (fun c => c.caption) =
      ["get", "getX", "xget"] := by
  constructor
  · intro l pfx
    constructor
    · have hs : (List.insertionSort complLE l).Sorted complLE :=
        List.sorted_insertionSort complLE l
      exact List.Pairwise.imp (fun h => (complLE_iff_rankLE _ _).mp h) hs
    · exact List.perm_insertionSort complLE l
  · decide

/-! ## C9: the modifier set stored by parseFunction -/

/-- One of the six modifier kinds collected before `function`. -/
def isModifierTok (t : Token) : Bool :=
  t.type = .T_PUBLIC || t.type = .T_PROTECTED || t.type = .T_PRIVATE ||
  t.type = .T_STATIC || t.type = .T_ABSTRACT || t.type = .T_FINAL

/-- The per-token modifier accumulation (the six conditional adds of the
backward scan, as one step). -/
def addModifierTok (mods : List String) (t : Token) : List String :=
  let mods := if t.type = .T_PUBLIC then sadd mods "public" else mods
  let mods := if t.type = .T_PROTECTED then sadd mods "protected" else mods
  let mods := if t.type = .T_PRIVATE then sadd mods "private" else mods
  let mods := if t.type = .T_STATIC then sadd mods "static" else mods
  let mods := if t.type = .T_ABSTRACT then sadd mods "abstract" else mods
  if t.type = .T_FINAL then sadd mods "final" else mods

/-- The modifier set the claim describes, stated forward: only the
contiguous run of modifier tokens immediately preceding index `start`
contributes, plus the default public visibility. -/
def c9ClaimedMods (ts : List Token) (start : Nat) : List String :=
  let seg := ((ts.take start).reverse.takeWhile isModifierTok).reverse
  let mods := seg.foldl addModifierTok []
  if !(mods.contains "public" || mods.contains "protected" || mods.contains "private")
  then sadd mods "public" else mods

/-- The modifier set the code computes, stated forward: every token after
the last single-character token before index `start` is scanned, modifier
kinds contribute, and tokens of other kinds are walked over without
stopping; plus the default public visibility. -/
def c9AmendedMods (ts : List Token) (start : Nat) : List String :=
  let seg := ((ts.take start).reverse.takeWhile (fun t => t.type ≠ .CHAR)).reverse
  let mods := seg.foldl addModifierTok []
  if !(mods.contains "public" || mods.contains "protected" || mods.contains "private")
  then sadd mods "public" else mods

theorem funcModsScan_eq_foldl (ts : List Token) : ∀ j : Nat,
    funcModsScan ts j =
      (((ts.take j).reverse.takeWhile (fun t => t.type ≠ .CHAR)).reverse).foldl
        addModifierTok [] := by
  intro j
  induction j with
  | zero => simp [funcModsScan]
  | succ j ih =>
    cases hj : ts[j]? with
    | none =>
      have hlen : ts.length ≤ j := by
        by_contra hlt
        push_neg at hlt
        exact absurd hj (by simp [List.getElem?_eq_getElem hlt])
      have h1 : ts.take (j + 1) = ts.take j := by
        rw [List.take_of_length_le hlen, List.take_of_length_le (by omega)]
      rw [funcModsScan, hj]
      rw [h1] at *
      exact ih
    | some t =>
      have h1 : ts.take (j + 1) = ts.take j ++ [t] := by
        rw [List.take_succ, hj]
        rfl
      by_cases hc : t.type = .CHAR
      · rw [funcModsScan, hj]
        simp [hc, h1, List.takeWhile]
      · rw [funcModsScan, hj]
        dsimp only
        rw [if_neg hc, h1, List.reverse_append]
        simp only [List.reverse_cons, List.reverse_nil, List.nil_append,
          List.singleton_append]
        rw [List.takeWhile_cons_of_pos (by simpa using hc)]
        rw [List.reverse_cons, List.foldl_append]
        simp only [List.foldl_cons, List.foldl_nil]
        rw [← ih]
        simp [addModifierTok]

/-- C9 (amended): the stored modifier set equals the forward
characterization in `c9AmendedMods`: all modifier tokens back to the
nearest preceding single-character token count — interleaved tokens of
other kinds do not stop the scan — plus the default public visibility. -/
theorem c9_amended_parseFunctionMods (ts : List Token) (start : Nat) :
    parseFunctionMods ts start = c9AmendedMods ts start := by
  unfold parseFunctionMods c9AmendedMods
  rw [funcModsScan_eq_foldl]

/-- The token stream of `private xyz function foo();`; index 2 is the
`function` keyword, and `xyz` sits between it and `private`. -/
def c9Tokens : List Token := tokenize "private xyz function foo();"

/-- C9 counterexample: with a non-modifier identifier between `private`
and `function`, the contiguous-modifiers reading predicts default public,
but the code scans past `xyz`, collects `private`, and stores it. -/
theorem c9_counterexample_mods :
    parseFunctionMods c9Tokens 2 = ["private"] ∧
    c9ClaimedMods c9Tokens 2 = ["public"] ∧
    (mget (parseFunction c9Tokens 2 "f" initIndexer).1.functions "foo").map
      (fun fd => fd.modifiers) = some ["private"] ∧
    parseFunctionMods c9Tokens 2 ≠ c9ClaimedMods c9Tokens 2 := by
  refine ⟨by decide, by decide, by decide, by decide⟩

/-! ## Map lemmas -/

theorem mget_cons_hd {β : Type} (p : String × β) (t : List (String × β)) (n : String)
    (h : p.1 = n) : mget (p :: t) n = some p.2 := by
  simp [mget, List.find?_cons_of_pos, h]

theorem mget_cons_tl {β : Type} (p : String × β) (t : List (String × β)) (n : String)
    (h : p.1 ≠ n) : mget (p :: t) n = mget t n := by
  simp only [mget]
  rw [List.find?_cons_of_neg _ (by simpa using h)]

theorem mhas_cons_tl {β : Type} (p : String × β) (t : List (String × β)) (n : String)
    (h : p.1 ≠ n) : mhas (p :: t) n = mhas t n := by
  simp only [mhas]
  rw [List.find?_cons_of_neg _ (by simpa using h)]

theorem mhas_eq_isSome {β : Type} (m : List (String × β)) (k : String) :
    mhas m k = (mget m k).isSome := by
  simp [mhas, mget]

theorem mget_mupd_self {β : Type} (m : List (String × β)) (k : String) (f : β → β) :
    mget (mupd m k f) k = (mget m k).map f := by
  induction m with
  | nil => rfl
  | cons p t ih =>
    by_cases h : p.1 = k
    · simp only [mupd, List.map_cons, if_pos h]
      rw [mget_cons_hd _ _ _ (by simp), mget_cons_hd _ _ _ h]
      rfl
    · simp only [mupd, List.map_cons, if_neg h]
      rw [mget_cons_tl _ _ _ h, mget_cons_tl _ _ _ h]
      exact ih

theorem mget_mupd_ne {β : Type} (m : List (String × β)) (k n : String) (f : β → β)
    (hn : n ≠ k) : mget (mupd m k f) n = mget m n := by
  induction m with
  | nil => rfl
  | cons p t ih =>
    by_cases h : p.1 = k
    · simp only [mupd, List.map_cons, if_pos h]
      rw [mget_cons_tl _ _ _ (fun he => hn he.symm),
        mget_cons_tl _ _ _ (fun he => hn (by rw [← he]; exact h))]
      exact ih
    · simp only [mupd, List.map_cons, if_neg h]
      by_cases hpn : p.1 = n
      · rw [mget_cons_hd _ _ _ hpn, mget_cons_hd _ _ _ hpn]
      · rw [mget_cons_tl _ _ _ hpn, mget_cons_tl _ _ _ hpn]
        exact ih

theorem mget_map_replace_self {β : Type} (m : List (String × β)) (k : String) (v : β)
    (hh : mhas m k = true) :
    mget (m.map (fun p => if p.1 = k then (k, v) else p)) k = some v := by
  induction m with
  | nil => simp [mhas] at hh
  | cons p t ih =>
    by_cases hp : p.1 = k
    · simp only [List.map_cons, if_pos hp]
      rw [mget_cons_hd _ _ _ (by simp)]
    · simp only [List.map_cons, if_neg hp]
      rw [mget_cons_tl _ _ _ hp]
      exact ih (by rwa [mhas_cons_tl _ _ _ hp] at hh)

theorem mget_map_replace_ne {β : Type} (m : List (String × β)) (k n : String) (v : β)
    (hn : n ≠ k) :
    mget (m.map (fun p => if p.1 = k then (k, v) else p)) n = mget m n := by
  induction m with
  | nil => rfl
  | cons p t ih =>
    by_cases hp : p.1 = k
    · simp only [List.map_cons, if_pos hp]
      rw [mget_cons_tl _ _ _ (fun he => hn he.symm),
        mget_cons_tl _ _ _ (fun he => hn (by rw [← he]; exact hp))]
      exact ih
    · simp only [List.map_cons, if_neg hp]
      by_cases hpn : p.1 = n
      · rw [mget_cons_hd _ _ _ hpn, mget_cons_hd _ _ _ hpn]
      · rw [mget_cons_tl _ _ _ hpn, mget_cons_tl _ _ _ hpn]
        exact ih

theorem mget_append_single_self {β : Type} (m : List (String × β)) (k : String) (v : β)
    (hh : mhas m k = false) : mget (m ++ [(k, v)]) k = some v := by
  induction m with
  | nil => rw [List.nil_append, mget_cons_hd _ _ _ rfl]
  | cons p t ih =>
    have hp : p.1 ≠ k := by
      intro he
      rw [show mhas (p :: t) k = true by simp [mhas, List.find?_cons_of_pos, he]] at hh
      cases hh
    rw [List.cons_append, mget_cons_tl _ _ _ hp]
    exact ih (by rwa [mhas_cons_tl _ _ _ hp] at hh)

theorem mget_append_single_ne {β : Type} (m : List (String × β)) (k n : String) (v : β)
    (hn : n ≠ k) : mget (m ++ [(k, v)]) n = mget m n := by
  induction m with
  | nil =>
    rw [List.nil_append, mget_cons_tl _ _ _ (fun he => hn he.symm)]
  | cons p t ih =>
    by_cases hpn : p.1 = n
    · rw [List.cons_append, mget_cons_hd _ _ _ hpn, mget_cons_hd _ _ _ hpn]
    · rw [List.cons_append, mget_cons_tl _ _ _ hpn, mget_cons_tl _ _ _ hpn]
      exact ih

theorem mget_mset_self {β : Type} (m : List (String × β)) (k : String) (v : β) :
    mget (mset m k v) k = some v := by
  unfold mset
  by_cases hh : mhas m k = true
  · rw [if_pos hh]
    exact mget_map_replace_self m k v hh
  · rw [if_neg hh]
    exact mget_append_single_self m k v (by simpa using hh)

theorem mget_mset_ne {β : Type} (m : List (String × β)) (k n : String) (v : β)
    (hn : n ≠ k) : mget (mset m k v) n = mget m n := by
  unfold mset
  by_cases hh : mhas m k = true
  · rw [if_pos hh]
    exact mget_map_replace_ne m k n v hn
  · rw [if_neg hh]
    exact mget_append_single_ne m k n v hn

theorem mget_eq_none_of_not_mem {β : Type} (m : List (String × β)) (k : String)
    (h : k ∉ m.map Prod.fst) : mget m k = none := by
  induction m with
  | nil => rfl
  | cons p t ih =>
    simp only [List.map_cons, List.mem_cons] at h
    push_neg at h
    rw [mget_cons_tl _ _ _ (fun he => h.1 he.symm)]
    exact ih h.2

/-- The per-name outcome of inheriting: the child's own member wins,
otherwise an eligible parent member is copied (updated), otherwise
nothing. -/
def inheritLookup {β : Type} (upd : β → β) (elig : β → Bool)
    (own par : Option β) : Option β :=
  match own with
  | some v => some v
  | none =>
    match par with
    | some w => if elig w then some (upd w) else none
    | none => none

/-- Lookup after the member-inheriting fold: the child's own entry always
wins; otherwise the (unique) parent entry with that key is copied exactly
when it is eligible. -/
theorem foldl_inherit_get {β : Type} (upd : β → β) (elig : β → Bool) :
    ∀ (parentM : List (String × β)), (parentM.map Prod.fst).Nodup →
    ∀ (childM : List (String × β)) (n : String),
    mget (parentM.foldl
      (fun cm p => if !mhas cm p.1 && elig p.2 then mset cm p.1 (upd p.2) else cm)
      childM) n =
      inheritLookup upd elig (mget childM n) (mget parentM n) := by
  intro parentM
  induction parentM with
  | nil =>
    intro _ childM n
    simp only [List.foldl_nil, inheritLookup]
    cases mget childM n <;> rfl
  | cons p rest ih =>
    intro hnd childM n
    rw [List.map_cons] at hnd
    obtain ⟨hpm, hnd'⟩ := List.nodup_cons.mp hnd
    rw [List.foldl_cons]
    by_cases hmem : mhas childM p.1 = true
    · have hstep :
        (if !mhas childM p.1 && elig p.2 then mset childM p.1 (upd p.2) else childM)
          = childM := by
        simp [hmem]
      rw [hstep, ih hnd' childM n]
      by_cases hn : p.1 = n
      · subst hn
        rw [mhas_eq_isSome] at hmem
        obtain ⟨v, hv⟩ := Option.isSome_iff_exists.mp hmem
        rw [hv]
        simp [inheritLookup]
      · rw [mget_cons_tl _ _ _ hn]
    · have hmf : mhas childM p.1 = false := by simpa using hmem
      have hcn : mget childM p.1 = none := by
        rw [mhas_eq_isSome] at hmf
        exact Option.not_isSome_iff_eq_none.mp (by simp [hmf])
      by_cases helig : elig p.2 = true
      · have hstep :
          (if !mhas childM p.1 && elig p.2 then mset childM p.1 (upd p.2) else childM)
            = mset childM p.1 (upd p.2) := by
          simp [hmf, helig]
        rw [hstep, ih hnd' _ n]
        by_cases hn : p.1 = n
        · subst hn
          rw [mget_mset_self, hcn, mget_cons_hd _ _ _ rfl]
          simp [inheritLookup, helig]
        · rw [mget_mset_ne _ _ _ _ (fun he => hn he.symm), mget_cons_tl _ _ _ hn]
      · have hstep :
          (if !mhas childM p.1 && elig p.2 then mset childM p.1 (upd p.2) else childM)
            = childM := by
          simp [helig]
        rw [hstep, ih hnd' childM n]
        by_cases hn : p.1 = n
        · subst hn
          rw [hcn, mget_eq_none_of_not_mem rest p.1 hpm, mget_cons_hd _ _ _ rfl]
          simp [inheritLookup, helig]
        · rw [mget_cons_tl _ _ _ hn]

/-- The eligibility test of the resolver: public or protected. -/
def inhEligF (fd : FunctionDef) : Bool :=
  fd.modifiers.contains "public" || fd.modifiers.contains "protected"

def inhUpdF (fd : FunctionDef) : FunctionDef := { fd with inherited := true }

def inhEligP (pd : PropDef) : Bool :=
  pd.modifiers.contains "public" || pd.modifiers.contains "protected"

def inhUpdP (pd : PropDef) : PropDef := { pd with inherited := true }

theorem inheritMethodsMap_get (childM parentM : List (String × FunctionDef))
    (hnd : (parentM.map Prod.fst).Nodup) (n : String) :
    mget (inheritMethodsMap childM parentM) n =
      inheritLookup inhUpdF inhEligF (mget childM n) (mget parentM n) := by
  exact foldl_inherit_get inhUpdF inhEligF parentM hnd childM n

theorem inheritPropsMap_get (childP parentP : List (String × PropDef))
    (hnd : (parentP.map Prod.fst).Nodup) (n : String) :
    mget (inheritPropsMap childP parentP) n =
      inheritLookup inhUpdP inhEligP (mget childP n) (mget parentP n) := by
  exact foldl_inherit_get inhUpdP inhEligP parentP hnd childP n

/-! ## Resolver step lemmas -/

theorem rIF_step_none (idx : Indexer) (k pk pn : String) (c : ClassDef) (n : Nat)
    (hc : mget idx.classes k = some c)
    (hres : c.inheritanceResolved = false)
    (hext : c.extendsNames = [pn])
    (hrcn : resolveClassName idx pn c = some pk)
    (hnone : resolveInheritanceF n idx pk = none) :
    resolveInheritanceF (n + 1) idx k = none := by
  rw [resolveInheritanceF, hc]
  dsimp only
  rw [hres]
  simp only [Bool.false_eq_true, if_false]
  rw [hext, resolveExtendsGo, hc]
  dsimp only
  rw [hrcn]
  dsimp only
  rw [hnone]

theorem rIF_step_some (idx : Indexer) (k pk pn : String) (c : ClassDef) (n : Nat)
    (idx2 : Indexer)
    (hc : mget idx.classes k = some c)
    (hres : c.inheritanceResolved = false)
    (hext : c.extendsNames = [pn])
    (hrcn : resolveClassName idx pn c = some pk)
    (hsome : resolveInheritanceF n idx pk = some idx2) :
    resolveInheritanceF (n + 1) idx k =
      some { inheritMembers idx2 k pk with
        classes := (mupd (inheritMembers idx2 k pk).classes k
          (fun d => { d with inheritanceResolved := true })) } := by
  rw [resolveInheritanceF, hc]
  dsimp only
  rw [hres]
  simp only [Bool.false_eq_true, if_false]
  rw [hext, resolveExtendsGo, hc]
  dsimp only
  rw [hrcn]
  dsimp only
  rw [hsome]
  dsimp only
  rw [resolveExtendsGo]

/-! ## C1: cyclic extends chains -/

/-- The spec's cycle-safety scenario: two classes extending each other in
one file. -/
def cycSource : String := "<?php class A extends B {} class B extends A {}"

/-- The indexer state right before `postProcessIndex`, as `indexPhpFiles`
builds it for that file (clear, then parse). -/
def cycIdx : Indexer :=
  { ([("a.php", cycSource)].foldl processFile
      { clearIndex initIndexer with totalFiles := 1, processedFiles := 0 }) with
    processedFiles := 1 }

def cycA : ClassDef :=
  { name := "A", fullName := "A", nsp := "", type := "class", modifiers := [],
    extendsNames := ["B"], implementsNames := [], methods := [], properties := [],
    constants := [], file := "a.php", docComment := none, line := 1 }

def cycB : ClassDef :=
  { cycA with name := "B", fullName := "B", extendsNames := ["A"] }

/-- At every stack budget, resolving either class of the cycle exhausts the
budget: the recursion never returns, since `inheritanceResolved` is only
set after the recursive calls and there is no in-progress guard. -/
theorem cyc_resolve_none : ∀ n : Nat,
    resolveInheritanceF n cycIdx "A" = none ∧ resolveInheritanceF n cycIdx "B" = none := by
  intro n
  induction n with
  | zero => exact ⟨rfl, rfl⟩
  | succ n ih =>
    refine ⟨?_, ?_⟩
    · exact rIF_step_none cycIdx "A" "B" "B" cycA n (by decide) (by decide) (by decide)
        (by decide) ih.2
    · exact rIF_step_none cycIdx "B" "A" "A" cycB n (by decide) (by decide) (by decide)
        (by decide) ih.1

/-- C1: resolving inheritance over the cyclic two-class symbol table does
NOT terminate — at every finite stack budget the resolution of either
class, and hence the whole indexing run, aborts with an exhausted budget
(the JS call stack overflows). The source has no in-progress state, so
this claim fails on the code. -/
theorem c1_cyclic_extends_diverges :
    (∀ fuel : Nat, resolveInheritanceF fuel cycIdx "A" = none) ∧
    (∀ fuel : Nat, indexFiles [("a.php", cycSource)] fuel initIndexer = none) := by
  constructor
  · intro fuel
    exact (cyc_resolve_none fuel).1
  · intro fuel
    have hfix : indexFiles [("a.php", cycSource)] fuel initIndexer
        = postProcessIndex fuel cycIdx := rfl
    rw [hfix]
    simp only [postProcessIndex]
    have hkeys : cycIdx.classes.map (fun p => p.1) = ["A", "B"] := by decide
    rw [hkeys]
    simp only [List.foldl_cons, List.foldl_nil]
    rw [(cyc_resolve_none fuel).1]
    rfl

/-- C2: for a child whose single extends entry resolves to a parent whose
own resolution completes (as it does for any acyclic chain, with enough
stack), `resolveInheritance` succeeds and the child's resulting methods
and properties maps are, name by name, exactly: the child's own member if
it declared one (never replaced), else a copy of the parent's member
tagged `inherited := true` when that member is public or protected, else
nothing — private parent members are never copied. -/
theorem c2_inheritance_copy (idx idx2 : Indexer) (ck pk pn : String)
    (child child2 parent2 : ClassDef) (fuel : Nat)
    (hc : mget idx.classes ck = some child)
    (hres : child.inheritanceResolved = false)
    (hext : child.extendsNames = [pn])
    (hrcn : resolveClassName idx pn child = some pk)
    (hpar : resolveInheritanceF fuel idx pk = some idx2)
    (hc2 : mget idx2.classes ck = some child2)
    (hp2 : mget idx2.classes pk = some parent2)
    (hndm : (parent2.methods.map Prod.fst).Nodup)
    (hndp : (parent2.properties.map Prod.fst).Nodup) :
    ∃ idx3 child3,
      resolveInheritanceF (fuel + 1) idx ck = some idx3 ∧
      mget idx3.classes ck = some child3 ∧
      (∀ n, mget child3.methods n =
        inheritLookup inhUpdF inhEligF (mget child2.methods n) (mget parent2.methods n)) ∧
      (∀ n, mget child3.properties n =
        inheritLookup inhUpdP inhEligP (mget child2.properties n)
          (mget parent2.properties n)) := by
  have hstep := rIF_step_some idx ck pk pn child fuel idx2 hc hres hext hrcn hpar
  have hIM : inheritMembers idx2 ck pk =
      { idx2 with classes := (mupd idx2.classes ck (fun chi =>
          { chi with methods := inheritMethodsMap chi.methods parent2.methods,
                     properties := inheritPropsMap chi.properties parent2.properties })) } := by
    unfold inheritMembers
    rw [hp2]
  refine ⟨_,
    { child2 with
        methods := (inheritMethodsMap child2.methods parent2.methods),
        properties := (inheritPropsMap child2.properties parent2.properties),
        inheritanceResolved := true },
    hstep, ?_, ?_, ?_⟩
  · rw [hIM]
    dsimp only
    rw [mget_mupd_self, mget_mupd_self, hc2]
    rfl
  · intro n
    exact inheritMethodsMap_get child2.methods parent2.methods hndm n
  · intro n
    exact inheritPropsMap_get child2.properties parent2.properties hndp n

/-- The spec's own inheritance example, as a symbol table: `App\Base` with
a public `foo`, a private `bar` and a protected `baz`; `App\Child extends
Base` declaring its own `foo`. -/
def w2Foo : FunctionDef :=
  { name := "foo", modifiers := ["public"], parameters := [], returnType := none,
    docComment := none, file := "b.php", line := 1, isMethod := true,
    cls := some "Base" }

def w2Bar : FunctionDef := { w2Foo with name := "bar", modifiers := ["private"] }

def w2Baz : FunctionDef := { w2Foo with name := "baz", modifiers := ["protected"] }

def w2Own : FunctionDef := { w2Foo with cls := some "Child", line := 2 }

def w2Base : ClassDef :=
  { name := "Base", fullName := "App\\Base", nsp := "App", type := "class",
    modifiers := [], extendsNames := [], implementsNames := [],
    methods := [("foo", w2Foo), ("bar", w2Bar), ("baz", w2Baz)], properties := [],
    constants := [], file := "b.php", docComment := none, line := 1 }

def w2Child : ClassDef :=
  { w2Base with
      name := "Child"
      fullName := "App\\Child"
      extendsNames := ["Base"]
      methods := [("foo", w2Own)]
      line := 2 }

def w2Idx : Indexer :=
  { initIndexer with classes := [("App\\Base", w2Base), ("App\\Child", w2Child)] }

/-- `w2Idx` after the parent has been resolved (which only flips its
resolution flag, the parent having no parents of its own). -/
def w2Idx2 : Indexer :=
  { initIndexer with classes :=
      [("App\\Base", { w2Base with inheritanceResolved := true }), ("App\\Child", w2Child)] }

theorem c2_inheritance_copy_witness :
    ∃ idx3 child3,
      resolveInheritanceF 2 w2Idx "App\\Child" = some idx3 ∧
      mget idx3.classes "App\\Child" = some child3 ∧
      (∀ n, mget child3.methods n =
        inheritLookup inhUpdF inhEligF (mget w2Child.methods n)
          (mget ({ w2Base with inheritanceResolved := true } : ClassDef).methods n)) ∧
      (∀ n, mget child3.properties n =
        inheritLookup inhUpdP inhEligP (mget w2Child.properties n)
          (mget ({ w2Base with inheritanceResolved := true } : ClassDef).properties n)) :=
  c2_inheritance_copy w2Idx w2Idx2 "App\\Child" "App\\Base" "Base" w2Child w2Child
    { w2Base with inheritanceResolved := true } 1 (by decide) (by decide) (by decide)
    (by decide) (by decide) (by decide) (by decide) (by decide) (by decide)

/-! ## C4 / C5: lexer totality and completeness -/

/-- C4: the lexer is total. Its loop consumes at least one character per
iteration, so fuel equal to the input length fully determines the output
(first conjunct: any two sufficient fuels agree, i.e. the loop terminates
with a well-defined result and never raises). Every non-whitespace
character is covered by some emitted token (second conjunct), and a
character matching no other rule falls through to the final rule and is
emitted as a single-character token (third conjunct). -/
theorem c4_tokenize_total :
    (∀ (f1 f2 : Nat) (cs : List Char) (line col : Nat),
      cs.length ≤ f1 → cs.length ≤ f2 →
        tokenizeF f1 cs line col = tokenizeF f2 cs line col) ∧
    (∀ s : String, Covers (tokenize s) s.data) ∧
    (∀ (fuel : Nat) (c : Char) (rest : List Char) (line col : Nat),
      jsIsWs c = false →
      listStarts (c :: rest) ['<', '?', 'p', 'h', 'p'] = false →
      (listStarts (c :: rest) ['/', '/'] || c = '#') = false →
      listStarts (c :: rest) ['/', '*'] = false →
      (c = '"' || c = '\'') = false →
      c ≠ '$' →
      isIdentStart c = false →
      tokenizeF (fuel + 1) (c :: rest) line col =
        { type := .CHAR, value := String.mk [c], line := ln2 c line,
          column := cl2 c col } :: tokenizeF fuel rest (ln2 c line) (cl2 c col)) :=
  ⟨tokenizeF_fuel_irrel, tokenize_covers, tokenizeF_char⟩

theorem c4_tokenize_total_witness :
    tokenizeF 5 "ab".data 1 1 = tokenizeF 9 "ab".data 1 1 ∧
    Covers (tokenize "@") "@".data ∧
    tokenizeF (1 + 1) ('@' :: "b".data) 1 1 =
      { type := .CHAR, value := String.mk ['@'], line := ln2 '@' 1,
        column := cl2 '@' 1 } :: tokenizeF 1 "b".data (ln2 '@' 1) (cl2 '@' 1) :=
  ⟨c4_tokenize_total.1 5 9 "ab".data 1 1 (by decide) (by decide),
   c4_tokenize_total.2.1 "@",
   c4_tokenize_total.2.2 1 '@' "b".data 1 1 (by decide) (by decide) (by decide)
     (by decide) (by decide) (by decide) (by decide)⟩

/-- C5: lexer completeness. For every input (well-formed or not), the
emitted token stream covers the source text: the character list of the
input is exactly the token literals concatenated in order with the skipped
whitespace characters reinserted at their original positions, as expressed
by the `Covers` relation. -/
theorem c5_lexer_round_trip (s : String) : Covers (tokenize s) s.data :=
  tokenize_covers s

/-! ## C10: the interfaces and traits maps are never written -/

/-- The pair of state components claim C10 is about. Every mutation in the
indexer pipeline leaves this pair unchanged. -/
def itp (idx : Indexer) : List (String × ClassDef) × List (String × ClassDef) :=
  (idx.interfaces, idx.traits)

theorem storeConst_it (idx : Indexer) (cd : ConstDef) :
    itp (storeConst idx cd) = itp idx := by
  unfold storeConst
  split <;> rfl

theorem storeProp_it (idx : Indexer) (pd : PropDef) :
    itp (storeProp idx pd) = itp idx := by
  unfold storeProp
  split <;> rfl

theorem parseNamespace_it (ts : List Token) (start : Nat) (fileKey : String)
    (idx : Indexer) : itp (parseNamespace ts start fileKey idx).1 = itp idx := by
  unfold parseNamespace
  dsimp only
  split <;> rfl

theorem parseUse_it (ts : List Token) (start : Nat) (fileKey : String)
    (idx : Indexer) : itp (parseUse ts start fileKey idx).1 = itp idx := by
  unfold parseUse
  dsimp only
  split <;> rfl

theorem ppVarLoop_it (ts : List Token) (fuel : Nat) :
    ∀ (i : Nat) (mods : List String) (idx : Indexer),
      itp (ppVarLoop ts fuel i mods idx).1 = itp idx := by
  induction fuel with
  | zero => intro i mods idx; rfl
  | succ fuel ih =>
    intro i mods idx
    rw [ppVarLoop]
    dsimp only
    repeat' split
    all_goals first
      | rfl
      | exact ih _ _ _
      | exact storeProp_it _ _
      | exact (ih _ _ _).trans (storeProp_it _ _)

theorem parseProperty_it (ts : List Token) (start : Nat) (idx : Indexer) :
    itp (parseProperty ts start idx).1 = itp idx := by
  unfold parseProperty
  dsimp only
  split
  · rename_i out h
    repeat' split at h
    all_goals first
      | (injection h with h2; rw [← h2]; exact storeConst_it _ _)
      | injection h
  · exact ppVarLoop_it _ _ _ _ _

theorem parseFunctionAnon_it (ts : List Token) (i : Nat) (idx : Indexer) :
    itp (parseFunctionAnon ts i idx).1 = itp idx := by
  unfold parseFunctionAnon
  dsimp only
  split <;> rfl

theorem parseFunction_it (ts : List Token) (start : Nat) (fileKey : String)
    (idx : Indexer) : itp (parseFunction ts start fileKey idx).1 = itp idx := by
  unfold parseFunction
  dsimp only
  repeat' split
  all_goals first
    | rfl
    | exact parseFunctionAnon_it _ _ _

theorem classBody_it (ts : List Token) (fileKey : String) (fuel : Nat) :
    ∀ (i : Nat) (braceDepth : Int) (idx : Indexer),
      itp (classBody ts fileKey fuel i braceDepth idx).1 = itp idx := by
  induction fuel with
  | zero => intro i braceDepth idx; rfl
  | succ fuel ih =>
    intro i braceDepth idx
    rw [classBody]
    dsimp only
    repeat' split
    all_goals first
      | rfl
      | exact ih _ _ _
      | exact (ih _ _ _).trans (parseFunction_it _ _ _ _)
      | exact (ih _ _ _).trans (parseProperty_it _ _ _)

theorem parseClass_it (ts : List Token) (start : Nat) (fileKey : String)
    (idx : Indexer) : itp (parseClass ts start fileKey idx).1 = itp idx := by
  unfold parseClass
  dsimp only
  repeat' split
  all_goals first
    | rfl
    | (refine (classBody_it _ _ _ _ _ _).trans ?_; rfl)

theorem parseTokens_it (ts : List Token) (fileKey : String) (fuel : Nat) :
    ∀ (i : Nat) (idx : Indexer), itp (parseTokens ts fileKey fuel i idx) = itp idx := by
  induction fuel with
  | zero => intro i idx; rfl
  | succ fuel ih =>
    intro i idx
    rw [parseTokens]
    dsimp only
    repeat' split
    all_goals first
      | rfl
      | exact ih _ _
      | exact (ih _ _).trans (parseNamespace_it _ _ _ _)
      | exact (ih _ _).trans (parseUse_it _ _ _ _)
      | exact (ih _ _).trans (parseClass_it _ _ _ _)
      | exact (ih _ _).trans (parseFunction_it _ _ _ _)

theorem processFile_it (idx : Indexer) (file : String × String) :
    itp (processFile idx file) = itp idx := by
  unfold processFile
  exact parseTokens_it _ _ _ _ _

theorem foldl_processFile_it (files : List (String × String)) :
    ∀ idx : Indexer, itp (files.foldl processFile idx) = itp idx := by
  induction files with
  | nil => intro idx; rfl
  | cons f rest ih =>
    intro idx
    rw [List.foldl_cons]
    exact (ih _).trans (processFile_it _ _)

theorem inheritMembers_it (idx : Indexer) (ck pk : String) :
    itp (inheritMembers idx ck pk) = itp idx := by
  unfold inheritMembers
  split <;> rfl

theorem resolveExtendsGo_it (resolve : Indexer → String → Option Indexer)
    (hres : ∀ idx k idx2, resolve idx k = some idx2 → itp idx2 = itp idx) :
    ∀ (names : List String) (idx : Indexer) (ck : String) (idx2 : Indexer),
      resolveExtendsGo resolve idx ck names = some idx2 → itp idx2 = itp idx := by
  intro names
  induction names with
  | nil =>
    intro idx ck idx2 h
    injection h with h2
    rw [h2]
  | cons pn rest ih =>
    intro idx ck idx2 h
    rw [resolveExtendsGo] at h
    split at h
    · exact ih _ _ _ h
    · split at h
      · exact ih _ _ _ h
      · split at h
        · exact absurd h (by simp)
        · rename_i idxr hr
          exact (ih _ _ _ h).trans ((inheritMembers_it _ _ _).trans (hres _ _ _ hr))

theorem resolveInheritanceF_it :
    ∀ (fuel : Nat) (idx : Indexer) (k : String) (idx2 : Indexer),
      resolveInheritanceF fuel idx k = some idx2 → itp idx2 = itp idx := by
  intro fuel
  induction fuel with
  | zero =>
    intro idx k idx2 h
    exact absurd h (by simp [resolveInheritanceF])
  | succ fuel ih =>
    intro idx k idx2 h
    rw [resolveInheritanceF] at h
    split at h
    · injection h with h2; rw [h2]
    · split at h
      · injection h with h2; rw [h2]
      · split at h
        · exact absurd h (by simp)
        · rename_i idxr heq
          injection h with h2
          rw [← h2]
          show itp idxr = itp idx
          exact resolveExtendsGo_it (resolveInheritanceF fuel) (fun a b c hh => ih a b c hh)
            _ _ _ _ heq

theorem foldl_opt_it (f : Option Indexer → String → Option Indexer)
    (hf : ∀ idx k idx2, f (some idx) k = some idx2 → itp idx2 = itp idx)
    (hnone : ∀ k, f none k = none) :
    ∀ (ks : List String) (idx idx2 : Indexer),
      ks.foldl f (some idx) = some idx2 → itp idx2 = itp idx := by
  have hn : ∀ (ks : List String), ks.foldl f none = none := by
    intro ks
    induction ks with
    | nil => rfl
    | cons k rest ih => rw [List.foldl_cons, hnone]; exact ih
  intro ks
  induction ks with
  | nil =>
    intro idx idx2 h
    injection h with h2
    rw [h2]
  | cons k rest ih =>
    intro idx idx2 h
    rw [List.foldl_cons] at h
    cases hr : f (some idx) k with
    | none =>
      rw [hr, hn rest] at h
      exact absurd h (by simp)
    | some j =>
      rw [hr] at h
      exact (ih j idx2 h).trans (hf idx k j hr)

theorem postProcessIndex_it (fuel : Nat) (idx idx2 : Indexer)
    (h : postProcessIndex fuel idx = some idx2) : itp idx2 = itp idx := by
  unfold postProcessIndex at h
  dsimp only at h
  cases hr : (idx.classes.map (fun p => p.1)).foldl
      (fun acc k =>
        match acc with
        | none => none
        | some j => resolveInheritanceF fuel j k)
      (some idx) with
  | none =>
    rw [hr] at h
    exact absurd h (by simp)
  | some j =>
    rw [hr] at h
    injection h with h2
    rw [← h2]
    exact foldl_opt_it _
      (fun a k b hh => resolveInheritanceF_it fuel a k b hh)
      (fun k => rfl) _ _ _ hr

/-- C10: the `interfaces` and `traits` maps are dead state. Every mutation
in the indexing pipeline writes only `classes`, the per-file records, or
scalar bookkeeping fields — `parseClass` registers interfaces and traits in
`classes` like any class — and `clearIndex` empties both maps at the start
of every run, so after any successful indexing run both maps are empty and
`getStatistics` reports zero interfaces and zero traits. -/
theorem c10_no_interfaces_traits (files : List (String × String)) (fuel : Nat)
    (idx0 idx : Indexer) (h : indexFiles files fuel idx0 = some idx) :
    idx.interfaces = [] ∧ idx.traits = [] ∧
    (getStatistics idx).interfaces = 0 ∧ (getStatistics idx).traits = 0 := by
  unfold indexFiles at h
  dsimp only at h
  have h3 : itp idx = (([] : List (String × ClassDef)), ([] : List (String × ClassDef))) := by
    refine (postProcessIndex_it fuel _ _ h).trans ?_
    show itp (List.foldl processFile
        { clearIndex idx0 with totalFiles := files.length, processedFiles := 0 } files) =
      (([] : List (String × ClassDef)), ([] : List (String × ClassDef)))
    exact foldl_processFile_it files
      { clearIndex idx0 with totalFiles := files.length, processedFiles := 0 }
  have hi : idx.interfaces = [] := congrArg Prod.fst h3
  have ht : idx.traits = [] := congrArg Prod.snd h3
  refine ⟨hi, ht, ?_, ?_⟩
  · show idx.interfaces.length = 0
    rw [hi]
    rfl
  · show idx.traits.length = 0
    rw [ht]
    rfl

theorem c10_no_interfaces_traits_witness :
    ((indexFiles [("a.php", "<?php class A {}")] 2 initIndexer).getD initIndexer).interfaces
        = [] ∧
    ((indexFiles [("a.php", "<?php class A {}")] 2 initIndexer).getD initIndexer).traits
        = [] ∧
    (getStatistics
        ((indexFiles [("a.php", "<?php class A {}")] 2 initIndexer).getD initIndexer)).interfaces
        = 0 ∧
    (getStatistics
        ((indexFiles [("a.php", "<?php class A {}")] 2 initIndexer).getD initIndexer)).traits
        = 0 :=
  c10_no_interfaces_traits [("a.php", "<?php class A {}")] 2 initIndexer
    ((indexFiles [("a.php", "<?php class A {}")] 2 initIndexer).getD initIndexer) (by rfl)
